import Mathlib

/-!
Verification of the `allOf` collapsing core of `json-schema-transform`
(`lib/allOf.js`).  The JavaScript source is shallowly embedded: JSON/JS
values become the inductive type `JVal` (with an explicit `undefined`
constructor, because the source assigns `subschema[excKeyword]` even when
that key is absent, which in JavaScript stores the value `undefined` under
an own key), JS objects become association lists in insertion order, the
per-keyword merge functions become a closed tag type `MergeFn` interpreted
by `applyMerge`, and the in-place mutation of the parent (and, where the
source does it, of the subschema) becomes explicit state passing: every
merge returns the updated `(parent, subschema)` pair.  Recursion through
the vocabulary is paid for with an explicit fuel argument; running out of
fuel is the distinguished error `CErr.outOfFuel`.
-/

/-- A JavaScript value as manipulated by `allOf.js`: JSON values plus
`undefined`.  Numbers are modelled as rationals (IEEE floating point
behaviour such as NaN is outside the model; the claims only involve
ordinary numerals). -/
inductive JVal where
  | undefined
  | null
  | bool (b : Bool)
  | num (q : Rat)
  | str (s : String)
  | arr (elems : List JVal)
  | obj (fields : List (String × JVal))

mutual

/-- Structural (deep) equality on `JVal`, the model of lodash `_.isEqual`. -/
def JVal.beq : JVal → JVal → Bool
  | .undefined, .undefined => true
  | .null, .null => true
  | .bool a, .bool b => a == b
  | .num a, .num b => a == b
  | .str a, .str b => a == b
  | .arr xs, .arr ys => JVal.beqList xs ys
  | .obj xs, .obj ys => JVal.beqFields xs ys
  | _, _ => false

def JVal.beqList : List JVal → List JVal → Bool
  | [], [] => true
  | x :: xs, y :: ys => JVal.beq x y && JVal.beqList xs ys
  | _, _ => false

def JVal.beqFields : List (String × JVal) → List (String × JVal) → Bool
  | [], [] => true
  | (k1, v1) :: xs, (k2, v2) :: ys => k1 == k2 && JVal.beq v1 v2 && JVal.beqFields xs ys
  | _, _ => false

end

theorem JVal.beq_iff : ∀ (a b : JVal), (JVal.beq a b = true) ↔ a = b := by
  have key : ∀ n : Nat, ∀ (a b : JVal), sizeOf a ≤ n → ((JVal.beq a b = true) ↔ a = b) := by
    intro n
    induction n with
    | zero => intro a b h; cases a <;> simp at h
    | succ n ih =>
      intro a b hle
      cases a <;> cases b <;> simp [JVal.beq]
      case arr.arr xs ys =>
        have hxs : sizeOf xs ≤ n := by simp at hle; omega
        clear hle
        induction xs generalizing ys with
        | nil => cases ys <;> simp [JVal.beqList]
        | cons x xs ihx =>
          cases ys with
          | nil => simp [JVal.beqList]
          | cons y ys =>
            have h1 : sizeOf x ≤ n := by simp at hxs; omega
            have h2 : sizeOf xs ≤ n := by simp at hxs; omega
            simp [JVal.beqList, ih x y h1, ihx ys h2]
      case obj.obj xs ys =>
        have hxs : sizeOf xs ≤ n := by simp at hle; omega
        clear hle
        induction xs generalizing ys with
        | nil => cases ys <;> simp [JVal.beqFields]
        | cons x xs ihx =>
          cases ys with
          | nil => simp [JVal.beqFields]
          | cons y ys =>
            obtain ⟨k1, v1⟩ := x
            obtain ⟨k2, v2⟩ := y
            have h1 : sizeOf v1 ≤ n := by simp at hxs; omega
            have h2 : sizeOf xs ≤ n := by simp at hxs; omega
            simp [JVal.beqFields, ih v1 v2 h1, ihx ys h2, and_assoc]
  intro a b
  exact key (sizeOf a) a b le_rfl

instance : DecidableEq JVal := fun a b =>
  decidable_of_iff (JVal.beq a b = true) (JVal.beq_iff a b)

/-- JavaScript truthiness of a value (`Boolean(v)`).  `NaN` is outside the
model; every modelled number other than `0` is truthy. -/
def JVal.truthy : JVal → Bool
  | .undefined => false
  | .null => false
  | .bool b => b
  | .num q => q != 0
  | .str s => s != ""
  | .arr _ => true
  | .obj _ => true

/-- `Array.isArray`. -/
def JVal.isArr : JVal → Bool
  | .arr _ => true
  | _ => false

/-- JavaScript strict equality `===` on the values the source compares.
For arrays and objects `===` is reference equality; distinct model values
are treated as distinct references, so the model answers `false` there. -/
def jstrictEq : JVal → JVal → Bool
  | .undefined, .undefined => true
  | .null, .null => true
  | .bool a, .bool b => a == b
  | .num a, .num b => a == b
  | .str a, .str b => a == b
  | _, _ => false

/-- JavaScript `<` restricted to the shapes the source exercises: two
numbers, or two strings (lexicographic).  Any other pairing compares via
NaN in JavaScript and yields `false`, which is what the model returns. -/
def jlt : JVal → JVal → Bool
  | .num a, .num b => a < b
  | .str a, .str b => a < b
  | _, _ => false

/-- JavaScript `>` under the same modelling as `jlt`. -/
def jgt : JVal → JVal → Bool
  | .num a, .num b => b < a
  | .str a, .str b => b < a
  | _, _ => false

/-- A JavaScript object in insertion order: the shape of every schema node
the collapser manipulates. -/
abbrev JObj := List (String × JVal)

/-- Own-property lookup (`o[k]` for a present key): the value stored under
the first (only, in a real JS object) occurrence of `k`. -/
def getProp (o : JObj) (k : String) : Option JVal :=
  (o.find? (fun p => p.1 == k)).map Prod.snd

/-- `o.hasOwnProperty(k)`. -/
def hasProp (o : JObj) (k : String) : Bool :=
  (getProp o k).isSome

/-- JavaScript property read `o[k]`: `undefined` when the key is absent. -/
def getD (o : JObj) (k : String) : JVal :=
  (getProp o k).getD .undefined

/-- JavaScript assignment `o[k] = v`: overwrite in place if the key exists,
otherwise append (insertion order). -/
def setProp : JObj → String → JVal → JObj
  | [], k, v => [(k, v)]
  | (k', v') :: rest, k, v =>
    if k' = k then (k, v) :: rest else (k', v') :: setProp rest k v

/-- JavaScript `delete o[k]`. -/
def delProp (o : JObj) (k : String) : JObj :=
  o.filter (fun p => p.1 ≠ k)

/-- `Object.keys(o)`. -/
def objKeys (o : JObj) : List String :=
  o.map Prod.fst

/-- Deduplicating concatenation pass with an accumulator of already-seen
elements; `dedupFirst l []` keeps the first occurrence of each element of
`l`, which is how lodash `union`/`intersection` build their results. -/
def dedupFirst {α : Type} [DecidableEq α] : List α → List α → List α
  | [], _ => []
  | x :: xs, seen => if x ∈ seen then dedupFirst xs seen else x :: dedupFirst xs (x :: seen)

/-- The closed catalogue of merge functions that can appear as values in a
vocabulary table, one tag per collapser function of the source. -/
inductive MergeFn where
  | or
  | maxOfMin
  | minOfMax
  | exclusiveComparison
  | arrayUnion
  | arrayIntersection
  | singleValueOrArrayIntersection
  | collapseArrayOrSingleSchemas
  | collapseObjectOfSchemas
  | parentWins
  | collision
  | notSupported
deriving DecidableEq

/-- A vocabulary table: keyword to merge function, looked up
first-match-wins (`vassign` prepends overriding entries). -/
abbrev Vocab := List (String × MergeFn)

def vocabGet (v : Vocab) (k : String) : Option MergeFn :=
  (v.find? (fun p => p.1 == k)).map Prod.snd

/-- `Object.assign({}, base, extra)` as it affects lookup: entries of
`extra` win over entries of `base`. -/
def vassign (base extra : Vocab) : Vocab := extra ++ base

/-- Errors thrown by the source, as structured values.  `shapeMismatch`
marks the places where the source would hand a value of an unexpected
shape to a JS builtin (for example `Math.max` on a non-number, which makes
NaN); no claim exercises those paths.  `outOfFuel` is the artefact of the
explicit fuel. -/
inductive CErr where
  | outOfFuel
  | cannotCollapseBooleanSchemas (path : List String)
  | additionalItemsNotSupported (path : List String)
  | mixedSchemaAndArrayForm (path : List String)
  | additionalPropertiesNotSupported (path : List String)
  | collisionForKeyword (keyword : String) (path : List String)
  | keywordNotSupported (keyword : String) (path : List String)
  | shapeMismatch (path : List String) (keyword : String)
deriving DecidableEq

/-- The type of the recursive collapse supplied to composite merge
functions: `(parent, parentPath, subschema) ↦ (parent', subschema')`.  In
the source this is `collapseSchemas` closed over the vocabulary (and, in
the model, over the remaining fuel). -/
abbrev RecFn := JVal → List String → JVal → Except CErr (JVal × JVal)

/-! ## The collapser functions (`allOf.js` lines 126-359).

All of them return the updated `(parent, subschema)` pair; the source
mutates the parent in place and — contract notwithstanding — in one place
also the subschema. -/

/-- `parent[keyword] = parent[keyword] || subschema[keyword]`. -/
def _or (pf : JObj) (parentPath : List String) (sf : JObj) (keyword : String) :
    Except CErr (JObj × JObj) :=
  .ok (setProp pf keyword (if (getD pf keyword).truthy then getD pf keyword else getD sf keyword), sf)

/-- `parent[keyword] = Math.max(parent[keyword], subschema[keyword])`. -/
def _maxOfMin (pf : JObj) (parentPath : List String) (sf : JObj) (keyword : String) :
    Except CErr (JObj × JObj) :=
  match getD pf keyword, getD sf keyword with
  | .num p, .num s => .ok (setProp pf keyword (.num (max p s)), sf)
  | _, _ => .error (.shapeMismatch parentPath keyword)

/-- `parent[keyword] = Math.min(parent[keyword], subschema[keyword])`. -/
def _minOfMax (pf : JObj) (parentPath : List String) (sf : JObj) (keyword : String) :
    Except CErr (JObj × JObj) :=
  match getD pf keyword, getD sf keyword with
  | .num p, .num s => .ok (setProp pf keyword (.num (min p s)), sf)
  | _, _ => .error (.shapeMismatch parentPath keyword)

/-- Draft-04 `minimum`/`maximum` with their boolean exclusivity modifiers
(`allOf.js` lines 165-191). -/
def _exclusiveComparison (pf : JObj) (parentPath : List String) (sf : JObj) (keyword : String) :
    Except CErr (JObj × JObj) :=
  let excKeyword := "exclusiveM" ++ keyword.drop 1
  if jstrictEq (getD pf keyword) (getD sf keyword)
      && ((getD pf excKeyword).truthy || (getD sf excKeyword).truthy) then
    .ok (setProp pf excKeyword (.bool true), sf)
  else if (if keyword = "minimum" then jlt (getD pf keyword) (getD sf keyword)
           else jgt (getD pf keyword) (getD sf keyword)) then
    .ok (setProp (setProp pf keyword (getD sf keyword)) excKeyword (getD sf excKeyword), sf)
  else
    .ok (pf, sf)

/-- `parent[keyword] = _.unionWith(parent[keyword], subschema[keyword],
_.isEqual)`: parent elements first, then new subschema elements, first
occurrences kept.  lodash's treatment of non-array operands (it skips
them) is outside the model. -/
def _arrayUnion (pf : JObj) (parentPath : List String) (sf : JObj) (keyword : String) :
    Except CErr (JObj × JObj) :=
  match getD pf keyword, getD sf keyword with
  | .arr ps, .arr ss => .ok (setProp pf keyword (.arr (dedupFirst (ps ++ ss) [])), sf)
  | _, _ => .error (.shapeMismatch parentPath keyword)

/-- `parent[keyword] = _.intersectionWith(parent[keyword],
subschema[keyword], _.isEqual)`: elements of the parent that deep-equal
some subschema element, parent order, first occurrences kept. -/
def _arrayIntersection (pf : JObj) (parentPath : List String) (sf : JObj) (keyword : String) :
    Except CErr (JObj × JObj) :=
  match getD pf keyword, getD sf keyword with
  | .arr ps, .arr ss =>
    .ok (setProp pf keyword (.arr (dedupFirst (ps.filter (fun x => decide (x ∈ ss))) [])), sf)
  | _, _ => .error (.shapeMismatch parentPath keyword)

/-- `allOf.js` lines 218-235: wrap non-array operands in one-element
arrays — note the wrap of `subschema[keyword]` is an assignment into the
caller's subschema — intersect, then unwrap a one-element result. -/
def _singleValueOrArrayIntersection (pf : JObj) (parentPath : List String) (sf : JObj)
    (keyword : String) : Except CErr (JObj × JObj) :=
  let pf := if (getD pf keyword).isArr then pf else setProp pf keyword (.arr [getD pf keyword])
  let sf := if (getD sf keyword).isArr then sf else setProp sf keyword (.arr [getD sf keyword])
  match _arrayIntersection pf parentPath sf keyword with
  | .error e => .error e
  | .ok (pf, sf) =>
    match getD pf keyword with
    | .arr [x] => .ok (setProp pf keyword x, sf)
    | _ => .ok (pf, sf)

/-- Pairwise recursive collapse of the common prefix of two tuple-form
`items` arrays (the `for` loop of `allOf.js` lines 272-279); `i` is the
index used in the path. -/
def collapseElems (rec : RecFn) (parentPath : List String) (keyword : String) :
    Nat → List JVal → List JVal → Except CErr (List JVal × List JVal)
  | _, [], _ => .ok ([], [])
  | _, _, [] => .ok ([], [])
  | i, p :: ps, s :: ss =>
    match rec p (parentPath ++ [keyword, toString i]) s with
    | .error e => .error e
    | .ok (p', s') =>
      match collapseElems rec parentPath keyword (i + 1) ps ss with
      | .error e => .error e
      | .ok (ps', ss') => .ok (p' :: ps', s' :: ss')

/-- `allOf.js` lines 246-289 (`items` and any future array-or-single
keyword). -/
def _collapseArrayOrSingleSchemas (rec : RecFn) (pf : JObj) (parentPath : List String)
    (sf : JObj) (keyword : String) : Except CErr (JObj × JObj) :=
  if keyword == "items" && (hasProp pf "additionalItems" || hasProp sf "additionalItems") then
    .error (.additionalItemsNotSupported parentPath)
  else
    match getD pf keyword, getD sf keyword with
    | .arr ps, .arr ss =>
      let c := min ps.length ss.length
      (match collapseElems rec parentPath keyword 0 (ps.take c) (ss.take c) with
       | .error e => .error e
       | .ok (cps, css) =>
         .ok (setProp pf keyword (.arr (cps ++ ps.drop c ++ ss.drop c)),
              setProp sf keyword (.arr (css ++ ss.drop c))))
    | .arr _, _ => .error (.mixedSchemaAndArrayForm parentPath)
    | _, .arr _ => .error (.mixedSchemaAndArrayForm parentPath)
    | pv, sv =>
      match rec pv (parentPath ++ [keyword]) sv with
      | .error e => .error e
      | .ok (p', s') => .ok (setProp pf keyword p', setProp sf keyword s')

/-- Per-shared-key recursive collapse of an object-of-schemas keyword (the
`for` loop of `allOf.js` lines 312-330), iterating the given key list. -/
def collapseProps (rec : RecFn) (parentPath : List String) (keyword : String) :
    JObj → JObj → List String → Except CErr (JObj × JObj)
  | po, so, [] => .ok (po, so)
  | po, so, p :: rest =>
    if !hasProp po p then
      collapseProps rec parentPath keyword (setProp po p (getD so p)) so rest
    else if hasProp so p then
      match rec (getD po p) (parentPath ++ [keyword, p]) (getD so p) with
      | .error e => .error e
      | .ok (v', s') =>
        collapseProps rec parentPath keyword (setProp po p v') (setProp so p s') rest
    else
      collapseProps rec parentPath keyword po so rest

/-- `allOf.js` lines 297-331 (`properties`, `patternProperties`,
`propertyNames`).  `Object.keys` of a non-object is outside the model. -/
def _collapseObjectOfSchemas (rec : RecFn) (pf : JObj) (parentPath : List String)
    (sf : JObj) (keyword : String) : Except CErr (JObj × JObj) :=
  if (keyword == "properties" || keyword == "patternProperties")
      && (hasProp pf "additionalProperties" || hasProp sf "additionalProperties") then
    .error (.additionalPropertiesNotSupported parentPath)
  else
    match getD pf keyword, getD sf keyword with
    | .obj po, .obj so =>
      (match collapseProps rec parentPath keyword po so
          (dedupFirst (objKeys po ++ objKeys so) []) with
       | .error e => .error e
       | .ok (po', so') =>
         .ok (setProp pf keyword (.obj po'), setProp sf keyword (.obj so')))
    | _, _ => .error (.shapeMismatch parentPath keyword)

/-- No-op: the subschema's value is discarded. -/
def _parentWins (pf : JObj) (parentPath : List String) (sf : JObj) (keyword : String) :
    Except CErr (JObj × JObj) :=
  .ok (pf, sf)

/-- Fails unless both values are deeply equal. -/
def _collision (pf : JObj) (parentPath : List String) (sf : JObj) (keyword : String) :
    Except CErr (JObj × JObj) :=
  if getD pf keyword = getD sf keyword then .ok (pf, sf)
  else .error (.collisionForKeyword keyword parentPath)

/-- Unconditional failure. -/
def _notSupported (pf : JObj) (parentPath : List String) (sf : JObj) (keyword : String) :
    Except CErr (JObj × JObj) :=
  .error (.keywordNotSupported keyword parentPath)

/-- Dispatch a vocabulary entry (`vocab[k](parent, parentPath, subschema,
vocab, k)` in the source; the vocabulary itself reaches the composite
functions only through `rec`). -/
def applyMerge (rec : RecFn) (f : MergeFn) (pf : JObj) (parentPath : List String) (sf : JObj)
    (keyword : String) : Except CErr (JObj × JObj) :=
  match f with
  | .or => _or pf parentPath sf keyword
  | .maxOfMin => _maxOfMin pf parentPath sf keyword
  | .minOfMax => _minOfMax pf parentPath sf keyword
  | .exclusiveComparison => _exclusiveComparison pf parentPath sf keyword
  | .arrayUnion => _arrayUnion pf parentPath sf keyword
  | .arrayIntersection => _arrayIntersection pf parentPath sf keyword
  | .singleValueOrArrayIntersection => _singleValueOrArrayIntersection pf parentPath sf keyword
  | .collapseArrayOrSingleSchemas => _collapseArrayOrSingleSchemas rec pf parentPath sf keyword
  | .collapseObjectOfSchemas => _collapseObjectOfSchemas rec pf parentPath sf keyword
  | .parentWins => _parentWins pf parentPath sf keyword
  | .collision => _collision pf parentPath sf keyword
  | .notSupported => _notSupported pf parentPath sf keyword

/-- One iteration of the keyword loop of `collapseSchemas` (`allOf.js`
lines 402-415): handler if both sides have the keyword and the vocabulary
knows it, pass-through if only the vocabulary is silent, plain copy if the
parent lacks the keyword. -/
def collapseStep (rec : RecFn) (vocab : Vocab) (parentPath : List String) (pf sf : JObj)
    (k : String) : Except CErr (JObj × JObj) :=
  if hasProp pf k then
    match vocabGet vocab k with
    | some f => applyMerge rec f pf parentPath sf k
    | none => .ok (pf, sf)
  else
    .ok (setProp pf k (getD sf k), sf)

/-- `for (let k of Object.keys(subschema)) ...`. -/
def collapseLoop (rec : RecFn) (vocab : Vocab) (parentPath : List String) :
    JObj → JObj → List String → Except CErr (JObj × JObj)
  | pf, sf, [] => .ok (pf, sf)
  | pf, sf, k :: ks =>
    match collapseStep rec vocab parentPath pf sf k with
    | .error e => .error e
    | .ok (pf', sf') => collapseLoop rec vocab parentPath pf' sf' ks

/-- `allOf.js` lines 388-399: delete a parent `exclusiveMaximum` with no
`maximum`, then a parent `exclusiveMinimum` with no `minimum`. -/
def pruneDangling (pf : JObj) : JObj :=
  let pf1 := if hasProp pf "exclusiveMaximum" && !hasProp pf "maximum" then
    delProp pf "exclusiveMaximum" else pf
  if hasProp pf1 "exclusiveMinimum" && !hasProp pf1 "minimum" then
    delProp pf1 "exclusiveMinimum" else pf1

/-- `collapseSchemas` (`allOf.js` lines 365-417) with explicit fuel,
returning the updated `(parent, subschema)` pair.  A non-boolean,
non-object schema reaching the object branch is outside the model
(`shapeMismatch`); the source would silently iterate zero keys there. -/
def collapseSchemasAux (vocab : Vocab) : Nat → JVal → List String → JVal →
    Except CErr (JVal × JVal)
  | 0, _, _, _ => .error .outOfFuel
  | fuel + 1, parent, parentPath, subschema =>
    if parent = .bool true ∨ (parent ≠ .bool false ∧ subschema = .bool false) then
      .error (.cannotCollapseBooleanSchemas parentPath)
    else if parent = .bool false ∨ subschema = .bool true then
      .ok (parent, subschema)
    else
      match parent, subschema with
      | .obj pf, .obj sf =>
        (collapseLoop (collapseSchemasAux vocab fuel) vocab parentPath
            (pruneDangling pf) sf (objKeys sf)).map (fun r => (.obj r.1, .obj r.2))
      | _, _ => .error (.shapeMismatch parentPath "")

/-- The mutated-and-returned parent of `collapseSchemas`. -/
def collapseSchemas (fuel : Nat) (parent : JVal) (parentPath : List String) (subschema : JVal)
    (vocab : Vocab) : Except CErr JVal :=
  (collapseSchemasAux vocab fuel parent parentPath subschema).map Prod.fst

/-! ## Vocabulary tables (`allOf.js` lines 6-124). -/

def DRAFT_04_NO_ID : Vocab :=
  [("type", .singleValueOrArrayIntersection),
   ("enum", .arrayIntersection),
   ("minimum", .exclusiveComparison),
   ("maximum", .exclusiveComparison),
   ("multipleOf", .collision),
   ("minLength", .maxOfMin),
   ("maxLength", .minOfMax),
   ("pattern", .collision),
   ("items", .collapseArrayOrSingleSchemas),
   ("additionalItems", .notSupported),
   ("minItems", .maxOfMin),
   ("maxItems", .minOfMax),
   ("uniqueItems", .or),
   ("properties", .collapseObjectOfSchemas),
   ("patternProperties", .collapseObjectOfSchemas),
   ("additionalProperties", .notSupported),
   ("dependencies", .notSupported),
   ("required", .arrayUnion),
   ("minProperties", .maxOfMin),
   ("maxProperties", .minOfMax),
   ("allOf", .parentWins),
   ("anyOf", .collision),
   ("oneOf", .collision),
   ("not", .collision),
   ("title", .parentWins),
   ("description", .parentWins),
   ("default", .parentWins),
   ("format", .collision),
   ("definitions", .parentWins),
   ("$ref", .notSupported)]

def DRAFT_04 : Vocab := vassign DRAFT_04_NO_ID [("id", .parentWins)]

def DRAFT_04_HYPER : Vocab := vassign DRAFT_04
  [("links", .arrayUnion), ("readOnly", .or), ("media", .collision),
   ("pathStart", .notSupported), ("fragmentResolution", .notSupported)]

def DRAFT_06 : Vocab := vassign DRAFT_04_NO_ID
  [("$id", .parentWins), ("const", .collision), ("minimum", .maxOfMin),
   ("exclusiveMinimum", .maxOfMin), ("maximum", .minOfMax), ("exclusiveMaximum", .minOfMax),
   ("propertyNames", .collapseObjectOfSchemas), ("examples", .arrayUnion)]

def DRAFT_06_HYPER : Vocab := vassign DRAFT_06
  [("base", .collision), ("links", .arrayUnion), ("readOnly", .or), ("media", .collision)]

def DRAFT_07 : Vocab := vassign DRAFT_06
  [("if", .collision), ("then", .collision), ("else", .collision), ("readOnly", .or),
   ("writeOnly", .or), ("contentMediaType", .collision), ("contentEncoding", .collision)]

def DRAFT_07_HYPER : Vocab := vassign DRAFT_07
  [("base", .collision), ("links", .arrayUnion)]

def CLOUDFLARE_DOCA : Vocab := vassign DRAFT_04_HYPER
  [("$comment", .parentWins), ("example", .parentWins), ("cfPrivate", .or),
   ("cfOmitFromExample", .or), ("cfExtendedDescription", .parentWins), ("cfNotes", .parentWins),
   ("cfLinkErrors", .arrayUnion), ("cfSectionNotes", .arrayUnion), ("cfRecurse", .notSupported)]

/-- The `switch (metaSchemaUri)` of `getCollapseAllOfCallback` (`allOf.js`
lines 431-438): unrecognised identifiers leave the table empty. -/
def vocabForUri (metaSchemaUri : String) : Vocab :=
  if metaSchemaUri = "http://json-schema.org/draft-04/schema#" then DRAFT_04
  else if metaSchemaUri = "http://json-schema.org/draft-04/hyper-schema#" then DRAFT_04_HYPER
  else []

/-- Base table then the additional vocabularies, later assignments winning
per keyword. -/
def effectiveVocab (metaSchemaUri : String) (additionalVocabularies : List Vocab) : Vocab :=
  additionalVocabularies.foldl (fun acc v => vassign acc v) (vocabForUri metaSchemaUri)

/-- The `_.reduce` over `subschema.allOf` inside the callback. -/
def foldAllOf (vocab : Vocab) (fuel : Nat) (path : List String) :
    JVal → List JVal → Except CErr JVal
  | p, [] => .ok p
  | p, s :: rest =>
    match collapseSchemas fuel p path s vocab with
    | .error e => .error e
    | .ok p' => foldAllOf vocab fuel path p' rest

/-- `getCollapseAllOfCallback` (`allOf.js` lines 428-465): the produced
post-walk callback, returning the updated node.  A non-array `allOf` value
reduces over nothing in lodash and is then deleted. -/
def getCollapseAllOfCallback (fuel : Nat) (metaSchemaUri : String)
    (additionalVocabularies : List Vocab) :
    JVal → List String → JVal → List String → Except CErr JVal :=
  fun subschema path _parent parentPath =>
    let vocab := effectiveVocab metaSchemaUri additionalVocabularies
    match subschema with
    | .obj sf =>
      match getProp sf "allOf" with
      | some (.arr subs) =>
        (match foldAllOf vocab fuel (parentPath ++ path) (.obj sf) subs with
         | .error e => .error e
         | .ok (.obj ff) => .ok (.obj (delProp ff "allOf"))
         | .ok v => .ok v)
      | some _ => .ok (.obj (delProp sf "allOf"))
      | none => .ok (.obj sf)
    | v => .ok v

/-! ## The order-insensitive scalar merges, and semantic equality of
results (used to state order-insensitivity of folding). -/

/-- The five merge kinds the spec calls order-insensitive: OR, max-of-min,
min-of-max, array union, array intersection. -/
def isScalarMerge : MergeFn → Bool
  | .or => true
  | .maxOfMin => true
  | .minOfMax => true
  | .arrayUnion => true
  | .arrayIntersection => true
  | _ => false

/-- The value shape each of the five scalar merges operates on: booleans
for OR (its JavaScript `||` is only order-insensitive for booleans),
numbers for the bound merges, arrays for union and intersection. -/
def shapeOkFor : MergeFn → JVal → Bool
  | .or, .bool _ => true
  | .maxOfMin, .num _ => true
  | .minOfMax, .num _ => true
  | .arrayUnion, .arr _ => true
  | .arrayIntersection, .arr _ => true
  | _, _ => false

/-- The pure value produced by a scalar merge on the parent's and the
subschema's values (matching each collapser's assignment). -/
def scalarMergeVal : MergeFn → JVal → JVal → JVal
  | .or, p, s => if p.truthy then p else s
  | .maxOfMin, .num p, .num s => .num (max p s)
  | .minOfMax, .num p, .num s => .num (min p s)
  | .arrayUnion, .arr ps, .arr ss => .arr (dedupFirst (ps ++ ss) [])
  | .arrayIntersection, .arr ps, .arr ss =>
    .arr (dedupFirst (ps.filter fun x => decide (x ∈ ss)) [])
  | _, p, _ => p

/-- The merged value of one keyword after folding one subschema, at the
`Option` level: keep the parent's value when the subschema lacks the
keyword, copy when the parent lacks it, otherwise apply the registered
scalar merge (parent wins when no handler is registered). -/
def mergeOneVal (vocab : Vocab) (k : String) : Option JVal → Option JVal → Option JVal
  | P, none => P
  | none, some s => some s
  | some p, some s =>
    match vocabGet vocab k with
    | some f => some (scalarMergeVal f p s)
    | none => some p

/-- Semantic equality of keyword values: equal outright, or two arrays
with the same elements (order and duplicates ignored — union results
differ in element order between fold orders). -/
def ValEquiv (v1 v2 : JVal) : Prop :=
  v1 = v2 ∨ ∃ xs ys, v1 = .arr xs ∧ v2 = .arr ys ∧ ∀ x, x ∈ xs ↔ x ∈ ys

def OptValEquiv : Option JVal → Option JVal → Prop
  | none, none => True
  | some v1, some v2 => ValEquiv v1 v2
  | _, _ => False

/-- Semantic equality of collapsed nodes: the same keys, with semantically
equal values (key insertion order ignored). -/
def ObjEquiv (r1 r2 : JObj) : Prop :=
  ∀ k, OptValEquiv (getProp r1 k) (getProp r2 k)

/-- The claim's hypothesis at one keyword: a scalar merge is registered
for it and every one of the given objects that has the keyword carries a
value of the merge's shape. -/
def scalarHypAt (vocab : Vocab) (k : String) (os : List JObj) : Bool :=
  match vocabGet vocab k with
  | some f => isScalarMerge f && os.all (fun o => !hasProp o k || shapeOkFor f (getD o k))
  | none => false

/-- A keyword overlaps when it is present in at least two of the parent
and the two subschemas. -/
def overlapAt (pf a b : JObj) (k : String) : Bool :=
  (hasProp pf k && hasProp a k) || (hasProp pf k && hasProp b k)
    || (hasProp a k && hasProp b k)

/-! ## Basic lemmas about the object operations. -/

theorem getProp_nil (k : String) : getProp ([] : JObj) k = none := rfl

theorem getProp_cons (k' : String) (v : JVal) (o : JObj) (k : String) :
    getProp ((k', v) :: o) k = if k' = k then some v else getProp o k := by
  by_cases h : k' = k <;> simp [getProp, List.find?_cons, h]

theorem hasProp_eq_isSome (o : JObj) (k : String) : hasProp o k = (getProp o k).isSome := rfl

theorem getProp_setProp_self (o : JObj) (k : String) (v : JVal) :
    getProp (setProp o k v) k = some v := by
  induction o with
  | nil => simp [setProp, getProp_cons]
  | cons p o ih =>
    obtain ⟨k', v'⟩ := p
    by_cases h : k' = k <;> simp [setProp, h, getProp_cons, ih]

theorem getProp_setProp_ne (o : JObj) (k k' : String) (v : JVal) (h : ¬ k = k') :
    getProp (setProp o k v) k' = getProp o k' := by
  induction o with
  | nil => simp [setProp, getProp_cons, h, getProp_nil]
  | cons p o ih =>
    obtain ⟨k2, v2⟩ := p
    by_cases h2 : k2 = k
    · subst h2; simp [setProp, getProp_cons, h]
    · simp [setProp, h2, getProp_cons, ih]

theorem hasProp_setProp_self (o : JObj) (k : String) (v : JVal) :
    hasProp (setProp o k v) k = true := by
  simp [hasProp, getProp_setProp_self]

theorem hasProp_setProp_ne (o : JObj) (k k' : String) (v : JVal) (h : ¬ k = k') :
    hasProp (setProp o k v) k' = hasProp o k' := by
  simp [hasProp, getProp_setProp_ne o k k' v h]

theorem getD_eq (o : JObj) (k : String) (v : JVal) (h : getProp o k = some v) :
    getD o k = v := by
  simp [getD, h]

theorem getProp_delProp_self (o : JObj) (k : String) : getProp (delProp o k) k = none := by
  induction o with
  | nil => rfl
  | cons p o ih =>
    obtain ⟨k2, v2⟩ := p
    by_cases h : k2 = k <;> simp [delProp, List.filter, h, getProp_cons, ih] <;>
      simpa [delProp] using ih

theorem getProp_delProp_ne (o : JObj) (k k' : String) (h : ¬ k = k') :
    getProp (delProp o k) k' = getProp o k' := by
  induction o with
  | nil => rfl
  | cons p o ih =>
    obtain ⟨k2, v2⟩ := p
    by_cases h2 : k2 = k
    · subst h2
      have : ¬ k2 = k' := h
      simp [delProp, List.filter, getProp_cons, this] at ih ⊢
      simpa [delProp] using ih
    · simp [delProp, List.filter, h2, getProp_cons] at ih ⊢
      by_cases h3 : k2 = k' <;> simp [h3, ih] <;> simpa [delProp] using ih

theorem hasProp_delProp_self (o : JObj) (k : String) : hasProp (delProp o k) k = false := by
  simp [hasProp, getProp_delProp_self]

theorem hasProp_delProp_ne (o : JObj) (k k' : String) (h : ¬ k = k') :
    hasProp (delProp o k) k' = hasProp o k' := by
  simp [hasProp, getProp_delProp_ne o k k' h]

theorem mem_objKeys (o : JObj) (k : String) : k ∈ objKeys o ↔ (getProp o k).isSome := by
  induction o with
  | nil => simp [objKeys, getProp_nil]
  | cons p o ih =>
    obtain ⟨k2, v⟩ := p
    have hk : objKeys ((k2, v) :: o) = k2 :: objKeys o := rfl
    rw [hk, getProp_cons]
    by_cases h : k2 = k
    · subst h; simp
    · rw [if_neg h, ← ih]
      constructor
      · intro hm
        rcases List.mem_cons.mp hm with h1 | h1
        · exact absurd h1.symm h
        · exact h1
      · exact fun hm => List.mem_cons_of_mem _ hm

theorem mem_dedupFirst {α : Type} [DecidableEq α] (x : α) :
    ∀ (l seen : List α), x ∈ dedupFirst l seen ↔ x ∈ l ∧ x ∉ seen := by
  intro l
  induction l with
  | nil => intro seen; simp [dedupFirst]
  | cons y l ih =>
    intro seen
    by_cases h : y ∈ seen
    · rw [dedupFirst, if_pos h, ih]
      constructor
      · rintro ⟨h1, h2⟩; exact ⟨List.mem_cons_of_mem _ h1, h2⟩
      · rintro ⟨h1, h2⟩
        rcases List.mem_cons.mp h1 with h3 | h3
        · exact absurd (h3 ▸ h) h2
        · exact ⟨h3, h2⟩
    · rw [dedupFirst, if_neg h]
      simp only [List.mem_cons, ih, List.mem_cons]
      by_cases hxy : x = y
      · subst hxy; simp [h]
      · simp [hxy]

theorem hasProp_pruneDangling_false (pf : JObj) (k : String) (h : hasProp pf k = false) :
    hasProp (pruneDangling pf) k = false := by
  have d : ∀ (o : JObj) (j : String), hasProp o k = false → hasProp (delProp o j) k = false := by
    intro o j ho
    by_cases hj : j = k
    · subst hj; exact hasProp_delProp_self o j
    · rw [hasProp_delProp_ne o j k hj]; exact ho
  have step2 : ∀ pf1 : JObj, hasProp pf1 k = false →
      hasProp (if hasProp pf1 "exclusiveMinimum" && !hasProp pf1 "minimum" then
        delProp pf1 "exclusiveMinimum" else pf1) k = false := by
    intro pf1 h1
    split
    · exact d _ _ h1
    · exact h1
  simp only [pruneDangling]
  apply step2
  split
  · exact d _ _ h
  · exact h

/-! ## Unfolding the collapse of two object schemas. -/

theorem collapseSchemasAux_obj (vocab : Vocab) (fuel : Nat) (pf sf : JObj) (path : List String) :
    collapseSchemasAux vocab (fuel + 1) (.obj pf) path (.obj sf) =
      (collapseLoop (collapseSchemasAux vocab fuel) vocab path (pruneDangling pf) sf
        (objKeys sf)).map (fun r => (.obj r.1, .obj r.2)) := by
  rw [collapseSchemasAux]
  rw [if_neg (by simp), if_neg (by simp)]

theorem collapseSchemas_obj (fuel : Nat) (pf sf : JObj) (path : List String) (vocab : Vocab) :
    collapseSchemas (fuel + 1) (.obj pf) path (.obj sf) vocab =
      (collapseLoop (collapseSchemasAux vocab fuel) vocab path (pruneDangling pf) sf
        (objKeys sf)).map (fun r => .obj r.1) := by
  rw [collapseSchemas, collapseSchemasAux_obj]
  cases collapseLoop (collapseSchemasAux vocab fuel) vocab path (pruneDangling pf) sf
    (objKeys sf) <;> rfl

/-! ## Claims. -/

/-- C1: for an object-form parent and object-form subschema,
`collapseSchemas` folds the subschema's keys over the (pruned) parent one
`collapseStep` at a time and returns the resulting mutated parent; a step
for keyword `k` invokes the registered handler when the parent also has
`k` and the vocabulary has an entry, leaves the parent untouched when the
parent has `k` but no handler is registered, and copies the subschema's
value directly when the parent lacks `k`. -/
theorem c1_keyword_dispatch :
    (∀ (fuel : Nat) (pf sf : JObj) (path : List String) (vocab : Vocab),
      collapseSchemas (fuel + 1) (.obj pf) path (.obj sf) vocab =
        (collapseLoop (collapseSchemasAux vocab fuel) vocab path (pruneDangling pf) sf
          (objKeys sf)).map (fun r => .obj r.1)) ∧
    (∀ (rec : RecFn) (vocab : Vocab) (path : List String) (pf sf : JObj) (k : String)
        (f : MergeFn), hasProp pf k = true → vocabGet vocab k = some f →
      collapseStep rec vocab path pf sf k = applyMerge rec f pf path sf k) ∧
    (∀ (rec : RecFn) (vocab : Vocab) (path : List String) (pf sf : JObj) (k : String),
      hasProp pf k = true → vocabGet vocab k = none →
      collapseStep rec vocab path pf sf k = .ok (pf, sf)) ∧
    (∀ (rec : RecFn) (vocab : Vocab) (path : List String) (pf sf : JObj) (k : String),
      hasProp pf k = false →
      collapseStep rec vocab path pf sf k = .ok (setProp pf k (getD sf k), sf)) := by
  refine ⟨?_, ?_, ?_, ?_⟩
  · exact fun fuel pf sf path vocab => collapseSchemas_obj fuel pf sf path vocab
  · intro rec vocab path pf sf k f hh hv
    rw [collapseStep, if_pos hh, hv]
  · intro rec vocab path pf sf k hh hv
    rw [collapseStep, if_pos hh, hv]
  · intro rec vocab path pf sf k hh
    rw [collapseStep, if_neg (by simp [hh])]

/-- Witness for C1 at concrete inputs: a `minLength` conflict dispatches
to the draft-04 handler, an unregistered keyword passes through, and a
keyword the parent lacks is copied. -/
theorem c1_keyword_dispatch_witness :
    collapseStep (collapseSchemasAux DRAFT_04 3) DRAFT_04 [] [("minLength", .num 3)]
        [("minLength", .num 5)] "minLength" =
      applyMerge (collapseSchemasAux DRAFT_04 3) .maxOfMin [("minLength", .num 3)] []
        [("minLength", .num 5)] "minLength" ∧
    collapseStep (collapseSchemasAux [] 3) [] [] [("minLength", .num 3)]
        [("minLength", .num 5)] "minLength" =
      .ok ([("minLength", .num 3)], [("minLength", .num 5)]) ∧
    collapseStep (collapseSchemasAux DRAFT_04 3) DRAFT_04 [] [] [("title", .str "t")] "title" =
      .ok ([("title", .str "t")], [("title", .str "t")]) :=
  ⟨c1_keyword_dispatch.2.1 (collapseSchemasAux DRAFT_04 3) DRAFT_04 [] [("minLength", .num 3)]
      [("minLength", .num 5)] "minLength" .maxOfMin rfl rfl,
   c1_keyword_dispatch.2.2.1 (collapseSchemasAux [] 3) [] [] [("minLength", .num 3)]
      [("minLength", .num 5)] "minLength" rfl rfl,
   c1_keyword_dispatch.2.2.2 (collapseSchemasAux DRAFT_04 3) DRAFT_04 [] [] [("title", .str "t")]
      "title" rfl⟩

/-- C4: whenever the `items` merge runs with an own `additionalItems` key
on either side it fails immediately, whatever the value; likewise the
`properties`/`patternProperties` merge with an own `additionalProperties`
key on either side. -/
theorem c4_additional_keyword_guards :
    (∀ (rec : RecFn) (pf sf : JObj) (path : List String),
      (hasProp pf "additionalItems" || hasProp sf "additionalItems") = true →
      _collapseArrayOrSingleSchemas rec pf path sf "items" =
        .error (.additionalItemsNotSupported path)) ∧
    (∀ (rec : RecFn) (pf sf : JObj) (path : List String) (k : String),
      (k = "properties" ∨ k = "patternProperties") →
      (hasProp pf "additionalProperties" || hasProp sf "additionalProperties") = true →
      _collapseObjectOfSchemas rec pf path sf k =
        .error (.additionalPropertiesNotSupported path)) := by
  constructor
  · intro rec pf sf path h
    rw [_collapseArrayOrSingleSchemas, if_pos (by simp [h])]
  · intro rec pf sf path k hk h
    rcases hk with rfl | rfl <;>
      rw [_collapseObjectOfSchemas, if_pos (by simp [h])]

/-- Witness for C4: the spec's rejection example (parent declares `items`
and `additionalItems: false`, subschema declares `items`), and the
`properties` analogue. -/
theorem c4_additional_keyword_guards_witness :
    _collapseArrayOrSingleSchemas (collapseSchemasAux DRAFT_04 3)
        [("items", .obj [("type", .str "string")]), ("additionalItems", .bool false)] []
        [("items", .obj [("minLength", .num 2)])] "items" =
      .error (.additionalItemsNotSupported []) ∧
    _collapseObjectOfSchemas (collapseSchemasAux DRAFT_04 3)
        [("properties", .obj []), ("additionalProperties", .bool false)] []
        [("properties", .obj [])] "properties" =
      .error (.additionalPropertiesNotSupported []) :=
  ⟨c4_additional_keyword_guards.1 (collapseSchemasAux DRAFT_04 3)
      [("items", .obj [("type", .str "string")]), ("additionalItems", .bool false)]
      [("items", .obj [("minLength", .num 2)])] [] rfl,
   c4_additional_keyword_guards.2 (collapseSchemasAux DRAFT_04 3)
      [("properties", .obj []), ("additionalProperties", .bool false)]
      [("properties", .obj [])] [] "properties" (Or.inl rfl) rfl⟩

/-- C5 counterexample: with parent `true` and subschema `true` the source
throws (`parent === true` is checked first), contradicting the claim that
subschema `true` always requires no action and returns the parent
unchanged without error. -/
theorem c5_boolean_schemas_counterexample :
    collapseSchemas 1 (.bool true) [] (.bool true) [] =
        .error (.cannotCollapseBooleanSchemas []) ∧
      collapseSchemas 1 (.bool true) [] (.bool true) [] ≠ .ok (.bool true) := by
  constructor
  · rfl
  · intro h
    rw [show collapseSchemas 1 (.bool true) [] (.bool true) [] =
      .error (.cannotCollapseBooleanSchemas []) from rfl] at h
    exact Except.noConfusion h

/-- C5 (amended): parent `true` always fails, whatever the subschema
(including subschema `true`); parent `false` returns the parent for any
subschema; subschema `true` returns the parent unchanged whenever the
parent is not `true`; subschema `false` fails whenever the parent is not
`false`. -/
theorem c5_boolean_schemas_amended :
    (∀ (fuel : Nat) (path : List String) (vocab : Vocab) (sub : JVal),
      collapseSchemas (fuel + 1) (.bool true) path sub vocab =
        .error (.cannotCollapseBooleanSchemas path)) ∧
    (∀ (fuel : Nat) (path : List String) (vocab : Vocab) (sub : JVal),
      collapseSchemas (fuel + 1) (.bool false) path sub vocab = .ok (.bool false)) ∧
    (∀ (fuel : Nat) (path : List String) (vocab : Vocab) (parent : JVal),
      parent ≠ .bool true →
      collapseSchemas (fuel + 1) parent path (.bool true) vocab = .ok parent) ∧
    (∀ (fuel : Nat) (path : List String) (vocab : Vocab) (parent : JVal),
      parent ≠ .bool false →
      collapseSchemas (fuel + 1) parent path (.bool false) vocab =
        .error (.cannotCollapseBooleanSchemas path)) := by
  refine ⟨?_, ?_, ?_, ?_⟩
  · intro fuel path vocab sub
    rw [collapseSchemas, collapseSchemasAux, if_pos (Or.inl rfl)]
    · rfl
    · intro po so hpo hso; exact JVal.noConfusion hpo
  · intro fuel path vocab sub
    have hneg : ¬((JVal.bool false) = .bool true ∨
        ((JVal.bool false) ≠ .bool false ∧ sub = .bool false)) := by simp
    rw [collapseSchemas, collapseSchemasAux, if_neg hneg, if_pos (Or.inl rfl)]
    · rfl
    · intro po so hpo hso; exact JVal.noConfusion hpo
  · intro fuel path vocab parent h
    have hneg : ¬(parent = .bool true ∨
        (parent ≠ .bool false ∧ (JVal.bool true) = .bool false)) := by simp [h]
    rw [collapseSchemas, collapseSchemasAux, if_neg hneg, if_pos (Or.inr rfl)]
    · rfl
    · intro po so hpo hso; exact JVal.noConfusion hso
  · intro fuel path vocab parent h
    rw [collapseSchemas, collapseSchemasAux, if_pos (Or.inr ⟨h, rfl⟩)]
    · rfl
    · intro po so hpo hso; exact JVal.noConfusion hso

/-- Witness for C5 (amended): an object parent with subschema `true` is
returned unchanged. -/
theorem c5_boolean_schemas_amended_witness :
    collapseSchemas 3 (.obj []) [] (.bool true) [] = .ok (.obj []) :=
  c5_boolean_schemas_amended.2.2.1 2 [] [] (.obj []) (by decide)

/-- C7: `collapseSchemas` prunes the parent's dangling exclusive-bound
modifiers (an own `exclusiveMaximum` without `maximum`, an own
`exclusiveMinimum` without `minimum`) before running the keyword loop; in
particular a parent `{exclusiveMaximum: true}` with no `maximum` merged
with an empty subschema loses `exclusiveMaximum`. -/
theorem c7_prune_dangling_modifiers :
    (∀ (fuel : Nat) (pf sf : JObj) (path : List String) (vocab : Vocab),
      collapseSchemas (fuel + 1) (.obj pf) path (.obj sf) vocab =
        (collapseLoop (collapseSchemasAux vocab fuel) vocab path (pruneDangling pf) sf
          (objKeys sf)).map (fun r => .obj r.1)) ∧
    (∀ pf : JObj, hasProp pf "exclusiveMaximum" = true → hasProp pf "maximum" = false →
      hasProp (pruneDangling pf) "exclusiveMaximum" = false) ∧
    (∀ pf : JObj, hasProp pf "exclusiveMinimum" = true → hasProp pf "minimum" = false →
      hasProp (pruneDangling pf) "exclusiveMinimum" = false) ∧
    (∀ (vocab : Vocab) (path : List String),
      collapseSchemas 1 (.obj [("exclusiveMaximum", .bool true)]) path (.obj []) vocab =
        .ok (.obj [])) := by
  refine ⟨?_, ?_, ?_, ?_⟩
  · exact fun fuel pf sf path vocab => collapseSchemas_obj fuel pf sf path vocab
  · intro pf h1 h2
    have base : hasProp (delProp pf "exclusiveMaximum") "exclusiveMaximum" = false :=
      hasProp_delProp_self _ _
    have e1 : (hasProp pf "exclusiveMaximum" && !hasProp pf "maximum") = true := by
      rw [h1, h2]; rfl
    simp only [pruneDangling, e1, if_true]
    split
    · rw [hasProp_delProp_ne _ _ _ (by decide)]; exact base
    · exact base
  · intro pf h1 h2
    have key : ∀ pf1 : JObj, hasProp pf1 "exclusiveMinimum" = true →
        hasProp pf1 "minimum" = false →
        hasProp (if hasProp pf1 "exclusiveMinimum" && !hasProp pf1 "minimum" then
          delProp pf1 "exclusiveMinimum" else pf1) "exclusiveMinimum" = false := by
      intro pf1 a b
      have e1 : (hasProp pf1 "exclusiveMinimum" && !hasProp pf1 "minimum") = true := by
        rw [a, b]; rfl
      simp only [e1, if_true]
      exact hasProp_delProp_self _ _
    simp only [pruneDangling]
    split
    · exact key _ (by rw [hasProp_delProp_ne _ _ _ (by decide)]; exact h1)
        (by rw [hasProp_delProp_ne _ _ _ (by decide)]; exact h2)
    · exact key _ h1 h2
  · intro vocab path
    rfl

/-- Witness for C7 at a concrete parent carrying both a real bound and a
dangling modifier. -/
theorem c7_prune_dangling_modifiers_witness :
    hasProp (pruneDangling [("exclusiveMaximum", .bool true), ("minLength", .num 1)])
      "exclusiveMaximum" = false :=
  c7_prune_dangling_modifiers.2.1 [("exclusiveMaximum", .bool true), ("minLength", .num 1)]
    rfl rfl

/-- C10: pruning touches only the parent's pre-existing keys: a subschema
consisting of a dangling exclusive-bound modifier alone is copied into the
parent verbatim, so a successfully collapsed node can carry an exclusivity
modifier with no co-located bound. -/
theorem c10_dangling_modifier_copied_from_subschema :
    ∀ (fuel : Nat) (pf : JObj) (path : List String) (vocab : Vocab) (m : String) (v : JVal),
      (m = "exclusiveMinimum" ∨ m = "exclusiveMaximum") →
      hasProp pf m = false →
      collapseSchemas (fuel + 1) (.obj pf) path (.obj [(m, v)]) vocab =
          .ok (.obj (setProp (pruneDangling pf) m v)) ∧
        getProp (setProp (pruneDangling pf) m v) m = some v ∧
        (hasProp pf (if m = "exclusiveMinimum" then "minimum" else "maximum") = false →
          hasProp (setProp (pruneDangling pf) m v)
            (if m = "exclusiveMinimum" then "minimum" else "maximum") = false) := by
  intro fuel pf path vocab m v hm h
  have hpr : hasProp (pruneDangling pf) m = false := hasProp_pruneDangling_false pf m h
  have hstep : collapseStep (collapseSchemasAux vocab fuel) vocab path (pruneDangling pf)
      [(m, v)] m = .ok (setProp (pruneDangling pf) m v, [(m, v)]) := by
    rw [collapseStep, if_neg (by simp [hpr])]
    simp [getD, getProp_cons]
  refine ⟨?_, getProp_setProp_self _ _ _, ?_⟩
  · rw [collapseSchemas_obj]
    show (collapseLoop (collapseSchemasAux vocab fuel) vocab path (pruneDangling pf)
      [(m, v)] [m]).map (fun r => JVal.obj r.1) = _
    rw [collapseLoop, hstep]
    rfl
  · intro hcomp
    have hne : ¬ m = (if m = "exclusiveMinimum" then "minimum" else "maximum") := by
      rcases hm with rfl | rfl <;> decide
    rw [hasProp_setProp_ne _ _ _ _ hne]
    exact hasProp_pruneDangling_false pf _ hcomp

/-- Witness for C10: an empty parent gains a verbatim dangling
`exclusiveMinimum`. -/
theorem c10_dangling_modifier_copied_from_subschema_witness :
    collapseSchemas 4 (.obj []) [] (.obj [("exclusiveMinimum", .bool true)]) DRAFT_04 =
      .ok (.obj [("exclusiveMinimum", .bool true)]) :=
  (c10_dangling_modifier_copied_from_subschema 3 [] [] DRAFT_04 "exclusiveMinimum"
    (.bool true) (Or.inl rfl) rfl).1

theorem JVal.isArr_iff (v : JVal) : v.isArr = true ↔ ∃ xs, v = .arr xs := by
  cases v <;> simp [JVal.isArr]

theorem getD_setProp_self (o : JObj) (k : String) (v : JVal) : getD (setProp o k v) k = v := by
  rw [getD, getProp_setProp_self]
  rfl

/-- Evaluation of `_singleValueOrArrayIntersection` once both operands are
(post-normalization) arrays, exposing the returned subschema. -/
theorem svai_eval (pf1 sf1 : JObj) (path : List String) (k : String) (ps ss : List JVal)
    (hp : getD pf1 k = .arr ps) (hs : getD sf1 k = .arr ss)
    (hp1 : (getD pf1 k).isArr = true) (hs1 : (getD sf1 k).isArr = true) :
    ∃ pf2, _singleValueOrArrayIntersection pf1 path sf1 k = .ok (pf2, sf1) := by
  rw [_singleValueOrArrayIntersection]
  simp only [hp1, hs1, if_true]
  rw [_arrayIntersection, hp, hs]
  simp only []
  rcases hsh : dedupFirst (ps.filter fun x => decide (x ∈ ss)) [] with _ | ⟨x, _ | ⟨y, L⟩⟩
  · exact ⟨_, by rw [getD_setProp_self]⟩
  · exact ⟨_, by rw [getD_setProp_self]⟩
  · exact ⟨_, by rw [getD_setProp_self]⟩

theorem JVal.isArr_arr (l : List JVal) : (JVal.arr l).isArr = true := rfl

/-- The in-place normalization at the top of
`_singleValueOrArrayIntersection` is idempotent: running the function on
the already-normalized pair gives the same result. -/
theorem svai_normalize (pf sf : JObj) (path : List String) (k : String) :
    _singleValueOrArrayIntersection pf path sf k =
      _singleValueOrArrayIntersection
        (if (getD pf k).isArr then pf else setProp pf k (.arr [getD pf k])) path
        (if (getD sf k).isArr then sf else setProp sf k (.arr [getD sf k])) k := by
  by_cases hpa : (getD pf k).isArr = true <;> by_cases hsa : (getD sf k).isArr = true <;>
    rw [_singleValueOrArrayIntersection, _singleValueOrArrayIntersection] <;>
    simp only [hpa, hsa, if_true, if_false, getD_setProp_self, JVal.isArr_arr,
      Bool.false_eq_true]

/-- C9: the single-value-or-array intersection mutates the caller-supplied
subschema — a scalar (non-array) subschema value is replaced inside the
subschema object by the one-element array wrapping it, so the subschema
handed back is not the subschema handed in, despite the documented
contract that merge functions do not modify the subschema. -/
theorem c9_subschema_mutated :
    ∀ (pf sf : JObj) (path : List String) (k : String) (v : JVal),
      getProp sf k = some v → v.isArr = false →
      (∃ pf2 : JObj, _singleValueOrArrayIntersection pf path sf k =
          .ok (pf2, setProp sf k (.arr [v]))) ∧
        setProp sf k (.arr [v]) ≠ sf := by
  intro pf sf path k v hv hna
  have hgd : getD sf k = v := getD_eq sf k v hv
  have hsf1 : (if (getD sf k).isArr then sf else setProp sf k (.arr [getD sf k]))
      = setProp sf k (.arr [v]) := by
    rw [hgd, if_neg (by simp [hna])]
  constructor
  · rw [svai_normalize, hsf1]
    obtain ⟨ps, hps⟩ : ∃ ps, getD (if (getD pf k).isArr then pf
        else setProp pf k (.arr [getD pf k])) k = .arr ps := by
      by_cases hpa : (getD pf k).isArr = true
      · rw [if_pos hpa]; exact (JVal.isArr_iff _).mp hpa
      · rw [if_neg hpa]; exact ⟨_, getD_setProp_self _ _ _⟩
    have hss : getD (setProp sf k (.arr [v])) k = .arr [v] := getD_setProp_self _ _ _
    exact svai_eval _ _ path k ps [v] hps hss (by rw [hps]; rfl) (by rw [hss]; rfl)
  · intro h
    have hcong := congrArg (fun o => getProp o k) h
    simp only [getProp_setProp_self] at hcong
    rw [hv] at hcong
    have harr : JVal.arr [v] = v := by injection hcong
    rw [← harr] at hna
    simp [JVal.isArr] at hna

/-- Witness for C9: collapsing `type` (a scalar on both sides) hands back
a subschema whose `type` has become a one-element array. -/
theorem c9_subschema_mutated_witness :
    (∃ pf2 : JObj, _singleValueOrArrayIntersection [("type", .str "string")] []
        [("type", .str "string")] "type" =
        .ok (pf2, [("type", .arr [.str "string"])])) ∧
      ([("type", JVal.arr [.str "string"])] : JObj) ≠ [("type", .str "string")] :=
  c9_subschema_mutated [("type", .str "string")] [("type", .str "string")] [] "type"
    (.str "string") rfl rfl

theorem jstrictEq_num (a b : Rat) : jstrictEq (.num a) (.num b) = (a == b) := rfl

theorem jlt_num (a b : Rat) : jlt (.num a) (.num b) = decide (a < b) := rfl

theorem jgt_num (a b : Rat) : jgt (.num a) (.num b) = decide (b < a) := rfl

/-- C2: draft-04 exclusive-bound resolution when both sides carry the
bound keyword (`minimum` or `maximum`): equal bounds keep the bound and
set the modifier exactly when either side's modifier is truthy (the OR of
the flags); a strictly tighter subschema (larger `minimum`, smaller
`maximum`) copies the subschema's bound *and* its modifier value over the
parent's, discarding the parent's flag; a strictly tighter parent leaves
the parent — bound and flag — untouched, discarding the subschema's flag. -/
theorem c2_exclusive_bound_resolution :
    ∀ (pf sf : JObj) (path : List String) (k : String) (p s : Rat),
      (k = "minimum" ∨ k = "maximum") →
      getProp pf k = some (.num p) → getProp sf k = some (.num s) →
      (p = s →
        (((getD pf ("exclusiveM" ++ k.drop 1)).truthy
            || (getD sf ("exclusiveM" ++ k.drop 1)).truthy) = true →
          _exclusiveComparison pf path sf k =
            .ok (setProp pf ("exclusiveM" ++ k.drop 1) (.bool true), sf)) ∧
        (((getD pf ("exclusiveM" ++ k.drop 1)).truthy
            || (getD sf ("exclusiveM" ++ k.drop 1)).truthy) = false →
          _exclusiveComparison pf path sf k = .ok (pf, sf)) ∧
        (∃ pf', _exclusiveComparison pf path sf k = .ok (pf', sf) ∧
          getProp pf' k = getProp pf k ∧
          (getD pf' ("exclusiveM" ++ k.drop 1)).truthy =
            ((getD pf ("exclusiveM" ++ k.drop 1)).truthy
              || (getD sf ("exclusiveM" ++ k.drop 1)).truthy))) ∧
      ((k = "minimum" ∧ p < s) ∨ (k = "maximum" ∧ s < p) →
        _exclusiveComparison pf path sf k =
          .ok (setProp (setProp pf k (.num s)) ("exclusiveM" ++ k.drop 1)
            (getD sf ("exclusiveM" ++ k.drop 1)), sf)) ∧
      ((k = "minimum" ∧ s < p) ∨ (k = "maximum" ∧ p < s) →
        _exclusiveComparison pf path sf k = .ok (pf, sf)) := by
  intro pf sf path k p s hk hp hs
  have hgp : getD pf k = .num p := getD_eq _ _ _ hp
  have hgs : getD sf k = .num s := getD_eq _ _ _ hs
  refine ⟨?_, ?_, ?_⟩
  · intro hps
    subst hps
    have heq1 : jstrictEq (getD pf k) (getD sf k) = true := by
      rw [hgp, hgs, jstrictEq_num]; simp
    have hlt1 : (if k = "minimum" then jlt (getD pf k) (getD sf k)
        else jgt (getD pf k) (getD sf k)) = false := by
      rcases hk with rfl | rfl <;> simp [hgp, hgs, jlt_num, jgt_num]
    refine ⟨?_, ?_, ?_⟩
    · intro htr
      simp only [_exclusiveComparison]
      rw [if_pos (by rw [heq1, htr]; rfl)]
    · intro hfa
      simp only [_exclusiveComparison]
      rw [if_neg (by rw [heq1, hfa]; simp), if_neg (by rw [hlt1]; simp)]
    · by_cases hor : ((getD pf ("exclusiveM" ++ k.drop 1)).truthy
          || (getD sf ("exclusiveM" ++ k.drop 1)).truthy) = true
      · refine ⟨setProp pf ("exclusiveM" ++ k.drop 1) (.bool true), ?_, ?_, ?_⟩
        · simp only [_exclusiveComparison]
          rw [if_pos (by rw [heq1, hor]; rfl)]
        · exact getProp_setProp_ne pf _ k _ (by rcases hk with rfl | rfl <;> decide)
        · rw [getD_setProp_self, hor]; rfl
      · have hfa : ((getD pf ("exclusiveM" ++ k.drop 1)).truthy
            || (getD sf ("exclusiveM" ++ k.drop 1)).truthy) = false :=
          Bool.eq_false_iff.mpr hor
        refine ⟨pf, ?_, rfl, ?_⟩
        · simp only [_exclusiveComparison]
          rw [if_neg (by rw [heq1, hfa]; simp), if_neg (by rw [hlt1]; simp)]
        · rw [hfa]
          cases hx : (getD pf ("exclusiveM" ++ k.drop 1)).truthy
          · rfl
          · rw [hx] at hfa; simp at hfa
  · intro hdir
    rcases hdir with ⟨rfl, hlt⟩ | ⟨rfl, hlt⟩
    · have hb : (p == s) = false := by simp [JVal.beq]; exact ne_of_lt hlt
      simp only [_exclusiveComparison]
      rw [if_neg (by rw [hgp, hgs, jstrictEq_num, hb]; simp),
        if_pos (by rw [if_pos trivial, hgp, hgs, jlt_num]; exact decide_eq_true hlt), hgs]
    · have hb : (p == s) = false := by simp [JVal.beq]; exact ne_of_gt hlt
      simp only [_exclusiveComparison]
      rw [if_neg (by rw [hgp, hgs, jstrictEq_num, hb]; simp),
        if_pos (by rw [if_neg (by decide), hgp, hgs, jgt_num]; exact decide_eq_true hlt), hgs]
  · intro hdir
    rcases hdir with ⟨rfl, hlt⟩ | ⟨rfl, hlt⟩
    · have hb : (p == s) = false := by simp [JVal.beq]; exact ne_of_gt hlt
      simp only [_exclusiveComparison]
      rw [if_neg (by rw [hgp, hgs, jstrictEq_num, hb]; simp),
        if_neg (by rw [if_pos trivial, hgp, hgs, jlt_num]; simp [not_lt.mpr (le_of_lt hlt)])]
    · have hb : (p == s) = false := by simp [JVal.beq]; exact ne_of_lt hlt
      simp only [_exclusiveComparison]
      rw [if_neg (by rw [hgp, hgs, jstrictEq_num, hb]; simp),
        if_neg (by rw [if_neg (by decide), hgp, hgs, jgt_num]; simp [not_lt.mpr (le_of_lt hlt)])]

/-- Witness for C2: the spec's example — parent `minimum: 5` against
subschema `minimum: 3, exclusiveMinimum: true` keeps `minimum: 5` and ends
with no `exclusiveMinimum` in the parent at all. -/
theorem c2_exclusive_bound_resolution_witness :
    _exclusiveComparison [("minimum", .num 5)] []
        [("minimum", .num 3), ("exclusiveMinimum", .bool true)] "minimum" =
      .ok ([("minimum", .num 5)], [("minimum", .num 3), ("exclusiveMinimum", .bool true)]) ∧
    hasProp [("minimum", JVal.num 5)] "exclusiveMinimum" = false :=
  ⟨((c2_exclusive_bound_resolution [("minimum", .num 5)]
      [("minimum", .num 3), ("exclusiveMinimum", .bool true)] [] "minimum" 5 3
      (Or.inl rfl) rfl rfl).2.2) (Or.inl ⟨rfl, by norm_num⟩), rfl⟩

/-- C3: the array-or-single-schema (`items`) merge.  Tuple form with tuple
form collapses corresponding elements pairwise over the common prefix and
appends the extra subschema elements verbatim in order — in particular
`[A, B]` against `[C, D, E]` gives `[collapse(A,C), collapse(B,D), E]`;
single schema with single schema collapses recursively once; an array on
one side with a single schema on the other fails. -/
theorem c3_items_merge :
    (∀ (rec : RecFn) (pf sf : JObj) (path : List String) (ps ss : List JVal)
        (cps css : List JVal),
      hasProp pf "additionalItems" = false → hasProp sf "additionalItems" = false →
      getD pf "items" = .arr ps → getD sf "items" = .arr ss →
      collapseElems rec path "items" 0 (ps.take (min ps.length ss.length))
          (ss.take (min ps.length ss.length)) = .ok (cps, css) →
      _collapseArrayOrSingleSchemas rec pf path sf "items" =
        .ok (setProp pf "items" (.arr (cps ++ ps.drop (min ps.length ss.length)
               ++ ss.drop (min ps.length ss.length))),
             setProp sf "items" (.arr (css ++ ss.drop (min ps.length ss.length))))) ∧
    (∀ (rec : RecFn) (pf sf : JObj) (path : List String) (A B C D E : JVal)
        (pA pB : JVal × JVal),
      hasProp pf "additionalItems" = false → hasProp sf "additionalItems" = false →
      getD pf "items" = .arr [A, B] → getD sf "items" = .arr [C, D, E] →
      rec A (path ++ ["items", "0"]) C = .ok pA →
      rec B (path ++ ["items", "1"]) D = .ok pB →
      _collapseArrayOrSingleSchemas rec pf path sf "items" =
        .ok (setProp pf "items" (.arr [pA.1, pB.1, E]),
             setProp sf "items" (.arr [pA.2, pB.2, E]))) ∧
    (∀ (rec : RecFn) (pf sf : JObj) (path : List String) (pr : JVal × JVal),
      hasProp pf "additionalItems" = false → hasProp sf "additionalItems" = false →
      (getD pf "items").isArr = false → (getD sf "items").isArr = false →
      rec (getD pf "items") (path ++ ["items"]) (getD sf "items") = .ok pr →
      _collapseArrayOrSingleSchemas rec pf path sf "items" =
        .ok (setProp pf "items" pr.1, setProp sf "items" pr.2)) ∧
    (∀ (rec : RecFn) (pf sf : JObj) (path : List String),
      hasProp pf "additionalItems" = false → hasProp sf "additionalItems" = false →
      (getD pf "items").isArr = true → (getD sf "items").isArr = false →
      _collapseArrayOrSingleSchemas rec pf path sf "items" =
        .error (.mixedSchemaAndArrayForm path)) ∧
    (∀ (rec : RecFn) (pf sf : JObj) (path : List String),
      hasProp pf "additionalItems" = false → hasProp sf "additionalItems" = false →
      (getD pf "items").isArr = false → (getD sf "items").isArr = true →
      _collapseArrayOrSingleSchemas rec pf path sf "items" =
        .error (.mixedSchemaAndArrayForm path)) := by
  refine ⟨?_, ?_, ?_, ?_, ?_⟩
  · intro rec pf sf path ps ss cps css ha1 ha2 hpv hsv hel
    rw [_collapseArrayOrSingleSchemas, if_neg (by simp [ha1, ha2]), hpv, hsv]
    simp only []
    rw [hel]
  · intro rec pf sf path A B C D E pA pB ha1 ha2 hpv hsv hA hB
    have hel : collapseElems rec path "items" 0 [A, B] [C, D] =
        .ok ([pA.1, pB.1], [pA.2, pB.2]) := by
      rw [collapseElems, show toString (0 : Nat) = "0" from rfl, hA]
      simp only []
      rw [collapseElems, show toString (0 + 1 : Nat) = "1" from rfl, hB]
      simp only []
      rw [collapseElems]
    rw [_collapseArrayOrSingleSchemas, if_neg (by simp [ha1, ha2]), hpv, hsv]
    simp only []
    rw [show List.take (min (List.length [A, B]) (List.length [C, D, E])) [A, B] = [A, B]
        from rfl,
      show List.take (min (List.length [A, B]) (List.length [C, D, E])) [C, D, E] = [C, D]
        from rfl, hel]
    rfl
  · intro rec pf sf path pr ha1 ha2 hpa hsa hrec
    rw [_collapseArrayOrSingleSchemas, if_neg (by simp [ha1, ha2])]
    rcases hpv : getD pf "items" with _ | _ | b | q | st | xs | o
    case arr =>
      rw [hpv] at hpa
      exact absurd hpa (by simp [JVal.isArr])
    all_goals
      simp only [hpv] at hrec ⊢
      rcases hsv : getD sf "items" with _ | _ | b2 | q2 | st2 | ys | o2
      case arr =>
        rw [hsv] at hsa
        exact absurd hsa (by simp [JVal.isArr])
      all_goals
        simp only [hsv] at hrec ⊢
        rw [hrec]
  · intro rec pf sf path ha1 ha2 hpa hsa
    obtain ⟨xs, hpv⟩ := (JVal.isArr_iff _).mp hpa
    rw [_collapseArrayOrSingleSchemas, if_neg (by simp [ha1, ha2]), hpv]
    rcases hsv : getD sf "items" with _ | _ | b | q | st | ys | o
    case arr =>
      rw [hsv] at hsa
      exact absurd hsa (by simp [JVal.isArr])
    all_goals rfl
  · intro rec pf sf path ha1 ha2 hpa hsa
    obtain ⟨ys, hsv⟩ := (JVal.isArr_iff _).mp hsa
    rw [_collapseArrayOrSingleSchemas, if_neg (by simp [ha1, ha2]), hsv]
    rcases hpv : getD pf "items" with _ | _ | b | q | st | xs | o
    case arr =>
      rw [hpv] at hpa
      exact absurd hpa (by simp [JVal.isArr])
    all_goals rfl

/-- Witness for C3: the `[A,B]` against `[C,D,E]` example with concrete
draft-04 schemas. -/
theorem c3_items_merge_witness :
    _collapseArrayOrSingleSchemas (collapseSchemasAux DRAFT_04 2)
        [("items", .arr [.obj [("minLength", .num 1)], .obj [("maxLength", .num 9)]])] []
        [("items", .arr [.obj [("minLength", .num 3)], .obj [("maxLength", .num 4)],
          .obj [("title", .str "E")]])] "items" =
      .ok ([("items", .arr [.obj [("minLength", .num 3)], .obj [("maxLength", .num 4)],
              .obj [("title", .str "E")]])],
           [("items", .arr [.obj [("minLength", .num 3)], .obj [("maxLength", .num 4)],
              .obj [("title", .str "E")]])]) :=
  c3_items_merge.2.1 (collapseSchemasAux DRAFT_04 2)
    [("items", .arr [.obj [("minLength", .num 1)], .obj [("maxLength", .num 9)]])]
    [("items", .arr [.obj [("minLength", .num 3)], .obj [("maxLength", .num 4)],
      .obj [("title", .str "E")]])] []
    (.obj [("minLength", .num 1)]) (.obj [("maxLength", .num 9)])
    (.obj [("minLength", .num 3)]) (.obj [("maxLength", .num 4)]) (.obj [("title", .str "E")])
    (.obj [("minLength", .num 3)], .obj [("minLength", .num 3)])
    (.obj [("maxLength", .num 4)], .obj [("maxLength", .num 4)])
    rfl rfl rfl rfl rfl rfl

/-- C8 counterexample: under an unknown dialect identifier (empty
vocabulary), a keyword present on both sides does NOT always keep the
parent's value — a dangling `exclusiveMaximum` is pruned from the parent
first, after which the subschema's value is copied in.  The parent's
original value was `true`; the folded result carries `false`. -/
theorem c8_empty_vocab_counterexample :
    getCollapseAllOfCallback 2 "https://example.com/unknown-schema" []
        (.obj [("exclusiveMaximum", .bool true),
          ("allOf", .arr [.obj [("exclusiveMaximum", .bool false)]])]) [] (.obj []) [] =
      .ok (.obj [("exclusiveMaximum", .bool false)]) ∧
    getProp [("exclusiveMaximum", JVal.bool true),
        ("allOf", .arr [.obj [("exclusiveMaximum", .bool false)]])] "exclusiveMaximum" =
      some (.bool true) ∧
    (JVal.bool false) ≠ (JVal.bool true) :=
  ⟨rfl, rfl, by decide⟩

/-- Folding a subschema with the empty vocabulary: every step is either
pass-through (parent keeps its value) or a plain copy; no handler can run,
so no handler failure can occur. -/
theorem collapseLoop_empty_vocab (rec : RecFn) (path : List String) (sf : JObj) :
    ∀ (ks : List String) (pf : JObj), (∀ k ∈ ks, (getProp sf k).isSome) →
      ∃ R, collapseLoop rec [] path pf sf ks = .ok (R, sf) ∧
        ∀ k, getProp R k = if k ∈ ks ∧ hasProp pf k = false then getProp sf k
          else getProp pf k := by
  intro ks
  induction ks with
  | nil =>
    intro pf _
    exact ⟨pf, rfl, fun k => by simp⟩
  | cons k0 ks ih =>
    intro pf hks
    have hstep : collapseStep rec [] path pf sf k0 =
        if hasProp pf k0 = true then .ok (pf, sf)
        else .ok (setProp pf k0 (getD sf k0), sf) := by
      by_cases h : hasProp pf k0 = true
      · rw [collapseStep, if_pos h, if_pos h]; rfl
      · rw [collapseStep, if_neg h, if_neg h]
    by_cases h0 : hasProp pf k0 = true
    · obtain ⟨R, hR, hform⟩ := ih pf (fun k hk => hks k (List.mem_cons_of_mem _ hk))
      refine ⟨R, ?_, ?_⟩
      · rw [collapseLoop, hstep, if_pos h0]
        show collapseLoop rec [] path pf sf ks = _
        exact hR
      · intro k
        rw [hform k]
        by_cases hkk : k ∈ ks ∧ hasProp pf k = false
        · rw [if_pos hkk, if_pos ⟨List.mem_cons_of_mem _ hkk.1, hkk.2⟩]
        · rw [if_neg hkk]
          by_cases hmem : k ∈ k0 :: ks ∧ hasProp pf k = false
          · rcases hmem with ⟨hm, hf⟩
            rcases List.mem_cons.mp hm with rfl | hm2
            · rw [hf] at h0; exact Bool.noConfusion h0
            · exact absurd ⟨hm2, hf⟩ hkk
          · rw [if_neg hmem]
    · have hs0 : getProp sf k0 = some (getD sf k0) := by
        have hq0 := hks k0 (List.mem_cons_self _ _)
        rcases hq : getProp sf k0 with _ | v
        · rw [hq] at hq0; simp at hq0
        · rw [getD, hq]; rfl
      obtain ⟨R, hR, hform⟩ := ih (setProp pf k0 (getD sf k0))
        (fun k hk => hks k (List.mem_cons_of_mem _ hk))
      refine ⟨R, ?_, ?_⟩
      · rw [collapseLoop, hstep, if_neg h0]
        show collapseLoop rec [] path (setProp pf k0 (getD sf k0)) sf ks = _
        exact hR
      · intro k
        rw [hform k]
        by_cases hkk : k = k0
        · subst hkk
          rw [if_neg (by simp [hasProp_setProp_self]), getProp_setProp_self,
            if_pos ⟨List.mem_cons_self _ _, Bool.eq_false_iff.mpr h0⟩]
          exact hs0.symm
        · have hg : getProp (setProp pf k0 (getD sf k0)) k = getProp pf k :=
            getProp_setProp_ne _ _ _ _ (fun hh => hkk hh.symm)
          have hh : hasProp (setProp pf k0 (getD sf k0)) k = hasProp pf k := by
            rw [hasProp, hasProp, hg]
          rw [hg, hh]
          by_cases hm : k ∈ ks ∧ hasProp pf k = false
          · rw [if_pos hm, if_pos ⟨List.mem_cons_of_mem _ hm.1, hm.2⟩]
          · rw [if_neg hm]
            by_cases hm2 : k ∈ k0 :: ks ∧ hasProp pf k = false
            · rcases hm2 with ⟨hmm, hf⟩
              rcases List.mem_cons.mp hmm with rfl | hm3
              · exact absurd rfl hkk
              · exact absurd ⟨hm3, hf⟩ hm
            · rw [if_neg hm2]

/-- C8 (amended): an unrecognised dialect identifier yields the empty
vocabulary (no error is raised for it), additional vocabularies aside the
effective table is exactly that base table, and folding any object
subschema into any object parent with the empty vocabulary always
succeeds — no handler exists to raise a collision or unsupported-keyword
failure — keeping the parent's value for every keyword the *pruned*
parent has and copying the subschema's value otherwise (so a dangling
exclusive-bound modifier present on both sides ends with the subschema's
value, not the parent's). -/
theorem c8_empty_vocab_amended :
    (∀ uri : String, uri ≠ "http://json-schema.org/draft-04/schema#" →
      uri ≠ "http://json-schema.org/draft-04/hyper-schema#" → vocabForUri uri = []) ∧
    (∀ uri : String, effectiveVocab uri [] = vocabForUri uri) ∧
    (∀ (fuel : Nat) (pf sf : JObj) (path : List String),
      ∃ R : JObj, collapseSchemas (fuel + 1) (.obj pf) path (.obj sf) [] = .ok (.obj R) ∧
        ∀ k : String, getProp R k =
          if hasProp (pruneDangling pf) k = true then getProp (pruneDangling pf) k
          else getProp sf k) := by
  refine ⟨?_, ?_, ?_⟩
  · intro uri h1 h2
    rw [vocabForUri, if_neg h1, if_neg h2]
  · intro uri
    rfl
  · intro fuel pf sf path
    obtain ⟨R, hR, hform⟩ := collapseLoop_empty_vocab (collapseSchemasAux [] fuel) path sf
      (objKeys sf) (pruneDangling pf) (fun k hk => (mem_objKeys sf k).mp hk)
    refine ⟨R, ?_, ?_⟩
    · rw [collapseSchemas_obj, hR]
      rfl
    · intro k
      rw [hform k]
      by_cases hk : hasProp (pruneDangling pf) k = true
      · rw [if_neg (by intro hc; rw [hk] at hc; simp at hc), if_pos hk]
      · have hk' : hasProp (pruneDangling pf) k = false := Bool.eq_false_iff.mpr hk
        by_cases hm : k ∈ objKeys sf
        · rw [if_pos ⟨hm, hk'⟩, if_neg (by simp [hk'])]
        · have h1 : getProp (pruneDangling pf) k = none := by
            rcases hq : getProp (pruneDangling pf) k with _ | v
            · rfl
            · rw [hasProp, hq] at hk'; simp at hk'
          have h2 : getProp sf k = none := by
            rcases hq : getProp sf k with _ | v
            · rfl
            · exact absurd ((mem_objKeys sf k).mpr (by rw [hq]; rfl)) hm
          rw [if_neg (by simp [hm]), if_neg (by simp [hk']), h1, h2]

/-- Witness for C8 (amended) at a concrete unknown identifier and concrete
nodes. -/
theorem c8_empty_vocab_amended_witness :
    vocabForUri "https://example.com/unknown-schema" = [] ∧
    ∃ R : JObj, collapseSchemas 3 (.obj [("title", .str "p")]) []
        (.obj [("title", .str "s"), ("minLength", .num 2)]) [] = .ok (.obj R) ∧
      ∀ k : String, getProp R k =
        if hasProp (pruneDangling [("title", .str "p")]) k = true then
          getProp (pruneDangling [("title", .str "p")]) k
        else getProp [("title", JVal.str "s"), ("minLength", JVal.num 2)] k :=
  ⟨c8_empty_vocab_amended.1 "https://example.com/unknown-schema" (by decide) (by decide),
   c8_empty_vocab_amended.2.2 2 [("title", .str "p")]
     [("title", .str "s"), ("minLength", .num 2)] []⟩

/-! ## Lemmas towards order-insensitivity of the scalar merges (C6). -/

theorem getProp_eq_getD (o : JObj) (k : String) (h : hasProp o k = true) :
    getProp o k = some (getD o k) := by
  rcases hq : getProp o k with _ | v
  · rw [hasProp, hq] at h; simp at h
  · rw [getD, hq]; rfl

theorem getProp_eq_none (o : JObj) (k : String) (h : hasProp o k = false) :
    getProp o k = none := by
  rcases hq : getProp o k with _ | v
  · rfl
  · rw [hasProp, hq] at h; simp at h

theorem getD_setProp_ne (o : JObj) (k k' : String) (v : JVal) (h : ¬ k = k') :
    getD (setProp o k v) k' = getD o k' := by
  rw [getD, getD, getProp_setProp_ne o k k' v h]

theorem pruneDangling_noop (pf : JObj) (h1 : hasProp pf "exclusiveMaximum" = false)
    (h2 : hasProp pf "exclusiveMinimum" = false) : pruneDangling pf = pf := by
  simp [pruneDangling, h1, h2]

theorem mem_unionList (x : JVal) (ps ss : List JVal) :
    x ∈ dedupFirst (ps ++ ss) [] ↔ x ∈ ps ∨ x ∈ ss := by
  rw [mem_dedupFirst]
  simp

theorem mem_interList (x : JVal) (ps ss : List JVal) :
    x ∈ dedupFirst (ps.filter fun y => decide (y ∈ ss)) [] ↔ x ∈ ps ∧ x ∈ ss := by
  rw [mem_dedupFirst]
  simp [List.mem_filter]

theorem scalarMergeVal_or_bool (x y : Bool) :
    scalarMergeVal .or (.bool x) (.bool y) = .bool (x || y) := by
  cases x <;> rfl

/-- Each scalar merge is commutative up to `ValEquiv` on well-shaped
values. -/
theorem scalarMerge_comm2 (f : MergeFn) (a b : JVal) (hf : isScalarMerge f = true)
    (ha : shapeOkFor f a = true) (hb : shapeOkFor f b = true) :
    ValEquiv (scalarMergeVal f a b) (scalarMergeVal f b a) := by
  cases f <;> simp [isScalarMerge] at hf
  case or =>
    rcases a with _ | _ | x | _ | _ | _ | _ <;> simp [shapeOkFor] at ha
    rcases b with _ | _ | y | _ | _ | _ | _ <;> simp [shapeOkFor] at hb
    rw [scalarMergeVal_or_bool, scalarMergeVal_or_bool, Bool.or_comm]
    exact Or.inl rfl
  case maxOfMin =>
    rcases a with _ | _ | _ | x | _ | _ | _ <;> simp [shapeOkFor] at ha
    rcases b with _ | _ | _ | y | _ | _ | _ <;> simp [shapeOkFor] at hb
    exact Or.inl (by rw [scalarMergeVal, scalarMergeVal, max_comm])
  case minOfMax =>
    rcases a with _ | _ | _ | x | _ | _ | _ <;> simp [shapeOkFor] at ha
    rcases b with _ | _ | _ | y | _ | _ | _ <;> simp [shapeOkFor] at hb
    exact Or.inl (by rw [scalarMergeVal, scalarMergeVal, min_comm])
  case arrayUnion =>
    rcases a with _ | _ | _ | _ | _ | xs | _ <;> simp [shapeOkFor] at ha
    rcases b with _ | _ | _ | _ | _ | ys | _ <;> simp [shapeOkFor] at hb
    refine Or.inr ⟨_, _, rfl, rfl, fun x => ?_⟩
    rw [mem_unionList, mem_unionList]
    tauto
  case arrayIntersection =>
    rcases a with _ | _ | _ | _ | _ | xs | _ <;> simp [shapeOkFor] at ha
    rcases b with _ | _ | _ | _ | _ | ys | _ <;> simp [shapeOkFor] at hb
    refine Or.inr ⟨_, _, rfl, rfl, fun x => ?_⟩
    rw [mem_interList, mem_interList]
    tauto

/-- Folding two values into a parent value with the same scalar merge is
order-insensitive up to `ValEquiv` on well-shaped values. -/
theorem scalarMerge_rot (f : MergeFn) (p a b : JVal) (hf : isScalarMerge f = true)
    (hp : shapeOkFor f p = true) (ha : shapeOkFor f a = true) (hb : shapeOkFor f b = true) :
    ValEquiv (scalarMergeVal f (scalarMergeVal f p a) b)
      (scalarMergeVal f (scalarMergeVal f p b) a) := by
  cases f <;> simp [isScalarMerge] at hf
  case or =>
    rcases p with _ | _ | w | _ | _ | _ | _ <;> simp [shapeOkFor] at hp
    rcases a with _ | _ | y | _ | _ | _ | _ <;> simp [shapeOkFor] at ha
    rcases b with _ | _ | z | _ | _ | _ | _ <;> simp [shapeOkFor] at hb
    rw [scalarMergeVal_or_bool, scalarMergeVal_or_bool, scalarMergeVal_or_bool,
      scalarMergeVal_or_bool, Bool.or_assoc, Bool.or_assoc, Bool.or_comm y z]
    exact Or.inl rfl
  case maxOfMin =>
    rcases p with _ | _ | _ | w | _ | _ | _ <;> simp [shapeOkFor] at hp
    rcases a with _ | _ | _ | y | _ | _ | _ <;> simp [shapeOkFor] at ha
    rcases b with _ | _ | _ | z | _ | _ | _ <;> simp [shapeOkFor] at hb
    exact Or.inl (by simp only [scalarMergeVal]
                     rw [max_assoc, max_comm y z, ← max_assoc])
  case minOfMax =>
    rcases p with _ | _ | _ | w | _ | _ | _ <;> simp [shapeOkFor] at hp
    rcases a with _ | _ | _ | y | _ | _ | _ <;> simp [shapeOkFor] at ha
    rcases b with _ | _ | _ | z | _ | _ | _ <;> simp [shapeOkFor] at hb
    exact Or.inl (by simp only [scalarMergeVal]
                     rw [min_assoc, min_comm y z, ← min_assoc])
  case arrayUnion =>
    rcases p with _ | _ | _ | _ | _ | ws | _ <;> simp [shapeOkFor] at hp
    rcases a with _ | _ | _ | _ | _ | ys | _ <;> simp [shapeOkFor] at ha
    rcases b with _ | _ | _ | _ | _ | zs | _ <;> simp [shapeOkFor] at hb
    refine Or.inr ⟨_, _, rfl, rfl, fun x => ?_⟩
    simp only [mem_unionList]
    tauto
  case arrayIntersection =>
    rcases p with _ | _ | _ | _ | _ | ws | _ <;> simp [shapeOkFor] at hp
    rcases a with _ | _ | _ | _ | _ | ys | _ <;> simp [shapeOkFor] at ha
    rcases b with _ | _ | _ | _ | _ | zs | _ <;> simp [shapeOkFor] at hb
    refine Or.inr ⟨_, _, rfl, rfl, fun x => ?_⟩
    simp only [mem_interList]
    tauto

/-- A scalar merge function, applied to well-shaped values, sets exactly
its keyword on the parent and leaves the subschema alone. -/
theorem applyMerge_scalar (rec : RecFn) (f : MergeFn) (pf sf : JObj) (path : List String)
    (k : String) (hf : isScalarMerge f = true)
    (hp : shapeOkFor f (getD pf k) = true) (hs : shapeOkFor f (getD sf k) = true) :
    applyMerge rec f pf path sf k =
      .ok (setProp pf k (scalarMergeVal f (getD pf k) (getD sf k)), sf) := by
  cases f <;> simp [isScalarMerge] at hf
  case or => rfl
  case maxOfMin =>
    rcases hpv : getD pf k with _ | _ | _ | p | _ | _ | _ <;> rw [hpv] at hp <;>
      simp [shapeOkFor] at hp
    rcases hsv : getD sf k with _ | _ | _ | s | _ | _ | _ <;> rw [hsv] at hs <;>
      simp [shapeOkFor] at hs
    show _maxOfMin pf path sf k = _
    rw [_maxOfMin, hpv, hsv]
    rfl
  case minOfMax =>
    rcases hpv : getD pf k with _ | _ | _ | p | _ | _ | _ <;> rw [hpv] at hp <;>
      simp [shapeOkFor] at hp
    rcases hsv : getD sf k with _ | _ | _ | s | _ | _ | _ <;> rw [hsv] at hs <;>
      simp [shapeOkFor] at hs
    show _minOfMax pf path sf k = _
    rw [_minOfMax, hpv, hsv]
    rfl
  case arrayUnion =>
    rcases hpv : getD pf k with _ | _ | _ | _ | _ | xs | _ <;> rw [hpv] at hp <;>
      simp [shapeOkFor] at hp
    rcases hsv : getD sf k with _ | _ | _ | _ | _ | ys | _ <;> rw [hsv] at hs <;>
      simp [shapeOkFor] at hs
    show _arrayUnion pf path sf k = _
    rw [_arrayUnion, hpv, hsv]
    rfl
  case arrayIntersection =>
    rcases hpv : getD pf k with _ | _ | _ | _ | _ | xs | _ <;> rw [hpv] at hp <;>
      simp [shapeOkFor] at hp
    rcases hsv : getD sf k with _ | _ | _ | _ | _ | ys | _ <;> rw [hsv] at hs <;>
      simp [shapeOkFor] at hs
    show _arrayIntersection pf path sf k = _
    rw [_arrayIntersection, hpv, hsv]
    rfl

/-- A scalar merge produces a value of its own shape. -/
theorem shapeOk_scalarMergeVal (f : MergeFn) (p s : JVal) (hf : isScalarMerge f = true)
    (hp : shapeOkFor f p = true) (hs : shapeOkFor f s = true) :
    shapeOkFor f (scalarMergeVal f p s) = true := by
  cases f <;> simp [isScalarMerge] at hf
  case or =>
    rcases p with _ | _ | x | _ | _ | _ | _ <;> simp [shapeOkFor] at hp
    rcases s with _ | _ | y | _ | _ | _ | _ <;> simp [shapeOkFor] at hs
    rw [scalarMergeVal_or_bool]
    rfl
  case maxOfMin =>
    rcases p with _ | _ | _ | x | _ | _ | _ <;> simp [shapeOkFor] at hp
    rcases s with _ | _ | _ | y | _ | _ | _ <;> simp [shapeOkFor] at hs
    rfl
  case minOfMax =>
    rcases p with _ | _ | _ | x | _ | _ | _ <;> simp [shapeOkFor] at hp
    rcases s with _ | _ | _ | y | _ | _ | _ <;> simp [shapeOkFor] at hs
    rfl
  case arrayUnion =>
    rcases p with _ | _ | _ | _ | _ | xs | _ <;> simp [shapeOkFor] at hp
    rcases s with _ | _ | _ | _ | _ | ys | _ <;> simp [shapeOkFor] at hs
    rfl
  case arrayIntersection =>
    rcases p with _ | _ | _ | _ | _ | xs | _ <;> simp [shapeOkFor] at hp
    rcases s with _ | _ | _ | _ | _ | ys | _ <;> simp [shapeOkFor] at hs
    rfl

theorem scalarHypAt_unpack (vocab : Vocab) (k : String) (os : List JObj)
    (h : scalarHypAt vocab k os = true) :
    ∃ f, vocabGet vocab k = some f ∧ isScalarMerge f = true ∧
      ∀ o ∈ os, hasProp o k = true → shapeOkFor f (getD o k) = true := by
  rw [scalarHypAt] at h
  rcases hv : vocabGet vocab k with _ | f
  · rw [hv] at h; simp at h
  · rw [hv] at h
    simp only [Bool.and_eq_true, List.all_eq_true] at h
    refine ⟨f, rfl, h.1, ?_⟩
    intro o ho hho
    have h2 := h.2 o ho
    rw [hho] at h2
    simpa using h2

theorem scalarHypAt_build (vocab : Vocab) (k : String) (os : List JObj) (f : MergeFn)
    (hv : vocabGet vocab k = some f) (hs : isScalarMerge f = true)
    (hall : ∀ o ∈ os, hasProp o k = true → shapeOkFor f (getD o k) = true) :
    scalarHypAt vocab k os = true := by
  rw [scalarHypAt, hv]
  simp only [Bool.and_eq_true, List.all_eq_true]
  refine ⟨hs, ?_⟩
  intro o ho
  by_cases hh : hasProp o k = true
  · simp [hall o ho hh]
  · simp [Bool.eq_false_iff.mpr hh]

theorem OptValEquiv.refl (o : Option JVal) : OptValEquiv o o := by
  cases o
  · exact trivial
  · exact Or.inl rfl

theorem mergeOneVal_none_right (vocab : Vocab) (k : String) (P : Option JVal) :
    mergeOneVal vocab k P none = P := by
  cases P <;> rfl

/-- The per-keyword value after folding two subschema values in either
order, under the claim's hypotheses, is the same up to `ValEquiv`. -/
theorem mergeOneVal_chain_comm (vocab : Vocab) (k : String) (P A B : Option JVal)
    (hcond : ((P.isSome && A.isSome) || (P.isSome && B.isSome)
        || (A.isSome && B.isSome)) = true →
      ∃ f, vocabGet vocab k = some f ∧ isScalarMerge f = true ∧
        (∀ v, P = some v → shapeOkFor f v = true) ∧
        (∀ v, A = some v → shapeOkFor f v = true) ∧
        (∀ v, B = some v → shapeOkFor f v = true)) :
    OptValEquiv (mergeOneVal vocab k (mergeOneVal vocab k P A) B)
      (mergeOneVal vocab k (mergeOneVal vocab k P B) A) := by
  rcases P with _ | p <;> rcases A with _ | a <;> rcases B with _ | b
  · exact trivial
  · exact OptValEquiv.refl _
  · exact OptValEquiv.refl _
  · obtain ⟨f, hv, hf, _, hA, hB⟩ := hcond rfl
    show OptValEquiv (mergeOneVal vocab k (some a) (some b))
      (mergeOneVal vocab k (some b) (some a))
    rw [mergeOneVal, mergeOneVal, hv]
    exact scalarMerge_comm2 f a b hf (hA a rfl) (hB b rfl)
  · exact OptValEquiv.refl _
  · rw [mergeOneVal_none_right, mergeOneVal_none_right]
    exact OptValEquiv.refl _
  · rw [mergeOneVal_none_right, mergeOneVal_none_right]
    exact OptValEquiv.refl _
  · obtain ⟨f, hv, hf, hP, hA, hB⟩ := hcond rfl
    show OptValEquiv (mergeOneVal vocab k (mergeOneVal vocab k (some p) (some a)) (some b))
      (mergeOneVal vocab k (mergeOneVal vocab k (some p) (some b)) (some a))
    rw [show mergeOneVal vocab k (some p) (some a) =
        some (scalarMergeVal f p a) from by rw [mergeOneVal, hv]]
    rw [show mergeOneVal vocab k (some p) (some b) =
        some (scalarMergeVal f p b) from by rw [mergeOneVal, hv]]
    rw [mergeOneVal, mergeOneVal, hv]
    exact scalarMerge_rot f p a b hf (hP p rfl) (hA a rfl) (hB b rfl)

/-- After setting one key, the scalar hypothesis at any other key is
unchanged. -/
theorem scalarHyp_after_set (vocab : Vocab) (sf pf : JObj) (k0 : String) (V : JVal)
    (k : String) (hne : ¬ k0 = k)
    (hbase : hasProp pf k = true → scalarHypAt vocab k [pf, sf] = true) :
    hasProp (setProp pf k0 V) k = true →
      scalarHypAt vocab k [setProp pf k0 V, sf] = true := by
  intro hh
  rw [hasProp_setProp_ne _ _ _ _ hne] at hh
  obtain ⟨f2, hv2, hf2, hsh2⟩ := scalarHypAt_unpack _ _ _ (hbase hh)
  refine scalarHypAt_build _ _ _ f2 hv2 hf2 ?_
  intro o ho hho
  rcases List.mem_cons.mp ho with rfl | ho2
  · rw [getD_setProp_ne _ _ _ _ hne]
    rw [hasProp_setProp_ne _ _ _ _ hne] at hho
    exact hsh2 pf (List.mem_cons_self _ _) hho
  · rcases List.mem_cons.mp ho2 with rfl | ho3
    · exact hsh2 o (List.mem_cons_of_mem _ (List.mem_cons_self _ _)) hho
    · exact absurd ho3 (List.not_mem_nil _)

/-- Folding one subschema whose keys are duplicate-free and whose
overlapping keywords all carry well-shaped scalar merges: the loop
succeeds, leaves the subschema untouched, and the final value at every
key is `mergeOneVal` of the two original values. -/
theorem collapseLoop_scalar (rec : RecFn) (vocab : Vocab) (path : List String) (sf : JObj) :
    ∀ (ks : List String) (pf : JObj),
      ks.Nodup →
      (∀ k ∈ ks, (getProp sf k).isSome) →
      (∀ k ∈ ks, hasProp pf k = true → scalarHypAt vocab k [pf, sf] = true) →
      ∃ R, collapseLoop rec vocab path pf sf ks = .ok (R, sf) ∧
        (∀ k ∈ ks, getProp R k = mergeOneVal vocab k (getProp pf k) (getProp sf k)) ∧
        (∀ k, k ∉ ks → getProp R k = getProp pf k) := by
  intro ks
  induction ks with
  | nil =>
    intro pf _ _ _
    exact ⟨pf, rfl, fun k hk => absurd hk (List.not_mem_nil k), fun k _ => rfl⟩
  | cons k0 ks ih =>
    intro pf hnd hsome hscal
    have hnd' : ks.Nodup := (List.nodup_cons.mp hnd).2
    have hk0 : k0 ∉ ks := (List.nodup_cons.mp hnd).1
    have hs0 : getProp sf k0 = some (getD sf k0) := by
      have hq := hsome k0 (List.mem_cons_self _ _)
      rcases hq2 : getProp sf k0 with _ | v
      · rw [hq2] at hq; simp at hq
      · rw [getD, hq2]; rfl
    have hsome' : ∀ k ∈ ks, (getProp sf k).isSome :=
      fun k hk => hsome k (List.mem_cons_of_mem _ hk)
    by_cases h0 : hasProp pf k0 = true
    · obtain ⟨f, hv, hf, hshape⟩ :=
        scalarHypAt_unpack _ _ _ (hscal k0 (List.mem_cons_self _ _) h0)
      have hsfhas : hasProp sf k0 = true := by rw [hasProp, hs0]; rfl
      have hstep : collapseStep rec vocab path pf sf k0 =
          .ok (setProp pf k0 (scalarMergeVal f (getD pf k0) (getD sf k0)), sf) := by
        rw [collapseStep, if_pos h0, hv]
        exact applyMerge_scalar rec f pf sf path k0 hf
          (hshape pf (List.mem_cons_self _ _) h0)
          (hshape sf (List.mem_cons_of_mem _ (List.mem_cons_self _ _)) hsfhas)
      have hscal' : ∀ k ∈ ks,
          hasProp (setProp pf k0 (scalarMergeVal f (getD pf k0) (getD sf k0))) k = true →
          scalarHypAt vocab k
            [setProp pf k0 (scalarMergeVal f (getD pf k0) (getD sf k0)), sf] = true :=
        fun k hkm => scalarHyp_after_set vocab sf pf k0 _ k
          (fun hh2 => hk0 (by rw [hh2]; exact hkm))
          (hscal k (List.mem_cons_of_mem _ hkm))
      obtain ⟨R, hR, hmem, hout⟩ :=
        ih (setProp pf k0 (scalarMergeVal f (getD pf k0) (getD sf k0))) hnd' hsome' hscal'
      refine ⟨R, ?_, ?_, ?_⟩
      · rw [collapseLoop, hstep]
        show collapseLoop rec vocab path
          (setProp pf k0 (scalarMergeVal f (getD pf k0) (getD sf k0))) sf ks = _
        exact hR
      · intro k hkm
        rcases List.mem_cons.mp hkm with rfl | hkm2
        · rw [hout k hk0, getProp_setProp_self, getProp_eq_getD pf k h0, hs0,
            mergeOneVal, hv]
        · rw [hmem k hkm2, getProp_setProp_ne _ _ _ _ (fun hh2 => hk0 (by rw [hh2]; exact hkm2))]
      · intro k hkn
        have h1 : k ∉ ks := fun hh => hkn (List.mem_cons_of_mem _ hh)
        have h2 : ¬ k0 = k := fun hh => hkn (by rw [← hh]; exact List.mem_cons_self _ _)
        rw [hout k h1, getProp_setProp_ne _ _ _ _ h2]
    · have hstep : collapseStep rec vocab path pf sf k0 =
          .ok (setProp pf k0 (getD sf k0), sf) := by
        rw [collapseStep, if_neg h0]
      have hscal' : ∀ k ∈ ks, hasProp (setProp pf k0 (getD sf k0)) k = true →
          scalarHypAt vocab k [setProp pf k0 (getD sf k0), sf] = true :=
        fun k hkm => scalarHyp_after_set vocab sf pf k0 _ k
          (fun hh2 => hk0 (by rw [hh2]; exact hkm))
          (hscal k (List.mem_cons_of_mem _ hkm))
      obtain ⟨R, hR, hmem, hout⟩ := ih (setProp pf k0 (getD sf k0)) hnd' hsome' hscal'
      refine ⟨R, ?_, ?_, ?_⟩
      · rw [collapseLoop, hstep]
        show collapseLoop rec vocab path (setProp pf k0 (getD sf k0)) sf ks = _
        exact hR
      · intro k hkm
        rcases List.mem_cons.mp hkm with rfl | hkm2
        · rw [hout k hk0, getProp_setProp_self,
            getProp_eq_none pf k (Bool.eq_false_iff.mpr h0), hs0, mergeOneVal]
        · rw [hmem k hkm2, getProp_setProp_ne _ _ _ _ (fun hh2 => hk0 (by rw [hh2]; exact hkm2))]
      · intro k hkn
        have h1 : k ∉ ks := fun hh => hkn (List.mem_cons_of_mem _ hh)
        have h2 : ¬ k0 = k := fun hh => hkn (by rw [← hh]; exact List.mem_cons_self _ _)
        rw [hout k h1, getProp_setProp_ne _ _ _ _ h2]

/-- One whole collapse of two object schemas under the scalar hypothesis:
it succeeds and the result is pointwise `mergeOneVal`. -/
theorem collapse_scalar (fuel : Nat) (vocab : Vocab) (pf sf : JObj) (path : List String)
    (hnd : (objKeys sf).Nodup)
    (hm1 : hasProp pf "exclusiveMaximum" = false)
    (hm2 : hasProp pf "exclusiveMinimum" = false)
    (hscal : ∀ k, hasProp pf k = true → hasProp sf k = true →
      scalarHypAt vocab k [pf, sf] = true) :
    ∃ R : JObj, collapseSchemas (fuel + 1) (.obj pf) path (.obj sf) vocab = .ok (.obj R) ∧
      ∀ k, getProp R k = mergeOneVal vocab k (getProp pf k) (getProp sf k) := by
  obtain ⟨R, hR, hmem, hout⟩ := collapseLoop_scalar (collapseSchemasAux vocab fuel) vocab path
    sf (objKeys sf) pf hnd (fun k hk => (mem_objKeys sf k).mp hk)
    (fun k hk hh => hscal k hh ((mem_objKeys sf k).mp hk))
  refine ⟨R, ?_, ?_⟩
  · rw [collapseSchemas_obj, pruneDangling_noop pf hm1 hm2, hR]
    rfl
  · intro k
    by_cases hk : k ∈ objKeys sf
    · exact hmem k hk
    · have hnone : getProp sf k = none := by
        rcases hq : getProp sf k with _ | v
        · rfl
        · exact absurd ((mem_objKeys sf k).mpr (by rw [hq]; rfl)) hk
      rw [hout k hk, hnone, mergeOneVal_none_right]

theorem overlapAt_swap (pf a b : JObj) (k : String) :
    overlapAt pf b a k = overlapAt pf a b k := by
  rw [overlapAt, overlapAt]
  cases hasProp pf k <;> cases hasProp a k <;> cases hasProp b k <;> rfl

theorem scalarHypAt_perm3 (vocab : Vocab) (k : String) (pf a b : JObj)
    (h : scalarHypAt vocab k [pf, a, b] = true) :
    scalarHypAt vocab k [pf, b, a] = true := by
  obtain ⟨f, hv, hf, hsh⟩ := scalarHypAt_unpack _ _ _ h
  refine scalarHypAt_build _ _ _ f hv hf ?_
  intro o ho hho
  refine hsh o ?_ hho
  simp only [List.mem_cons, List.not_mem_nil, or_false] at ho ⊢
  tauto

theorem scalarHyp_first (vocab : Vocab) (pf a b : JObj)
    (hov : ∀ k, overlapAt pf a b k = true → scalarHypAt vocab k [pf, a, b] = true) :
    ∀ k, hasProp pf k = true → hasProp a k = true → scalarHypAt vocab k [pf, a] = true := by
  intro k h1 h2
  obtain ⟨f, hv, hf, hsh⟩ := scalarHypAt_unpack _ _ _
    (hov k (by rw [overlapAt, h1, h2]; rfl))
  refine scalarHypAt_build _ _ _ f hv hf ?_
  intro o ho hho
  refine hsh o ?_ hho
  simp only [List.mem_cons, List.not_mem_nil, or_false] at ho ⊢
  tauto

theorem hasProp_merged_false (vocab : Vocab) (pf a R1 : JObj) (m : String)
    (hform1 : ∀ k, getProp R1 k = mergeOneVal vocab k (getProp pf k) (getProp a k))
    (h1 : hasProp pf m = false) (h2 : hasProp a m = false) : hasProp R1 m = false := by
  rw [hasProp, hform1 m, getProp_eq_none pf m h1, getProp_eq_none a m h2]
  rfl

/-- The scalar hypothesis survives one fold: the keywords of the folded
result against the remaining subschema are still covered. -/
theorem scalarHyp_fold (vocab : Vocab) (pf a b R1 : JObj)
    (hform1 : ∀ k, getProp R1 k = mergeOneVal vocab k (getProp pf k) (getProp a k))
    (hov : ∀ k, overlapAt pf a b k = true → scalarHypAt vocab k [pf, a, b] = true) :
    ∀ k, hasProp R1 k = true → hasProp b k = true →
      scalarHypAt vocab k [R1, b] = true := by
  intro k h1 h2
  have hpa : hasProp pf k = true ∨ hasProp a k = true := by
    by_cases hp : hasProp pf k = true
    · exact Or.inl hp
    · by_cases ha2 : hasProp a k = true
      · exact Or.inr ha2
      · exfalso
        rw [hasProp, hform1 k, getProp_eq_none pf k (Bool.eq_false_iff.mpr hp),
          getProp_eq_none a k (Bool.eq_false_iff.mpr ha2),
          mergeOneVal_none_right] at h1
        simp at h1
  have hov2 : scalarHypAt vocab k [pf, a, b] = true := by
    apply hov k
    rw [overlapAt]
    rcases hpa with h | h <;> simp [h, h2]
  obtain ⟨f, hv, hf, hsh⟩ := scalarHypAt_unpack _ _ _ hov2
  refine scalarHypAt_build _ _ _ f hv hf ?_
  intro o ho hho
  rcases List.mem_cons.mp ho with rfl | ho2
  · by_cases hp : hasProp pf k = true <;> by_cases ha2 : hasProp a k = true
    · have hval : getProp o k = some (scalarMergeVal f (getD pf k) (getD a k)) := by
        rw [hform1 k, getProp_eq_getD pf k hp, getProp_eq_getD a k ha2, mergeOneVal, hv]
      rw [getD, hval, Option.getD_some]
      exact shapeOk_scalarMergeVal f _ _ hf
        (hsh pf (List.mem_cons_self _ _) hp)
        (hsh a (List.mem_cons_of_mem _ (List.mem_cons_self _ _)) ha2)
    · have hval : getProp o k = some (getD pf k) := by
        rw [hform1 k, getProp_eq_none a k (Bool.eq_false_iff.mpr ha2),
          mergeOneVal_none_right, getProp_eq_getD pf k hp]
      rw [getD, hval, Option.getD_some]
      exact hsh pf (List.mem_cons_self _ _) hp
    · have hval : getProp o k = some (getD a k) := by
        rw [hform1 k, getProp_eq_none pf k (Bool.eq_false_iff.mpr hp),
          getProp_eq_getD a k ha2, mergeOneVal]
      rw [getD, hval, Option.getD_some]
      exact hsh a (List.mem_cons_of_mem _ (List.mem_cons_self _ _)) ha2
    · exfalso
      rw [hasProp, hform1 k, getProp_eq_none pf k (Bool.eq_false_iff.mpr hp),
        getProp_eq_none a k (Bool.eq_false_iff.mpr ha2), mergeOneVal_none_right] at h1
      simp at h1
  · rcases List.mem_cons.mp ho2 with rfl | ho3
    · exact hsh o
        (List.mem_cons_of_mem _ (List.mem_cons_of_mem _ (List.mem_cons_self _ _))) hho
    · exact absurd ho3 (List.not_mem_nil _)

/-- C6 (counterexample): the claim promises order-insensitivity of folding
whenever all overlapping keywords are handled by the five scalar merges,
but dangling-modifier pruning defeats it even with no overlapping keyword
at all: with parent `\x7b\x7d`, subschema A = `\x7bexclusiveMaximum:true\x7d` and
subschema B = `\x7b\x7d` under draft-04, folding A then B prunes the copied
modifier away while folding B then A keeps it, and the two final results
are not semantically equal. -/
theorem c6_scalar_merge_order_counterexample :
    (∀ k, overlapAt [] [("exclusiveMaximum", JVal.bool true)] [] k = false) ∧
    collapseSchemas 3 (.obj []) [] (.obj [("exclusiveMaximum", JVal.bool true)]) DRAFT_04
      = .ok (.obj [("exclusiveMaximum", JVal.bool true)]) ∧
    collapseSchemas 3 (.obj [("exclusiveMaximum", JVal.bool true)]) [] (.obj []) DRAFT_04
      = .ok (.obj []) ∧
    collapseSchemas 3 (.obj []) [] (.obj []) DRAFT_04 = .ok (.obj []) ∧
    ¬ ObjEquiv [] [("exclusiveMaximum", JVal.bool true)] := by
  refine ⟨?_, rfl, rfl, rfl, ?_⟩
  · intro k
    have h0 : hasProp ([] : JObj) k = false := rfl
    rw [overlapAt, h0]
    simp
  · intro h
    exact h "exclusiveMaximum"

/-- C6 (amended): folding two subschemas into a parent in either order
gives semantically equal results (same keys, equal values up to array
element order) when every keyword present on at least two of the three
nodes is registered to one of the five scalar merges — OR, max-of-min,
min-of-max, array union, array intersection — with values of that
merge's shape, provided additionally that none of the three nodes
carries an `exclusiveMaximum`/`exclusiveMinimum` key (pruning of
dangling modifiers is itself order-sensitive) and the subschemas' key
lists are duplicate-free. -/
theorem c6_scalar_merge_order_amended
    (fuel : Nat) (vocab : Vocab) (path : List String) (pf a b : JObj)
    (hnda : (objKeys a).Nodup) (hndb : (objKeys b).Nodup)
    (hpf1 : hasProp pf "exclusiveMaximum" = false)
    (hpf2 : hasProp pf "exclusiveMinimum" = false)
    (ha1 : hasProp a "exclusiveMaximum" = false)
    (ha2 : hasProp a "exclusiveMinimum" = false)
    (hb1 : hasProp b "exclusiveMaximum" = false)
    (hb2 : hasProp b "exclusiveMinimum" = false)
    (hov : ∀ k ∈ objKeys pf ++ objKeys a ++ objKeys b,
      overlapAt pf a b k = true → scalarHypAt vocab k [pf, a, b] = true) :
    ∃ Ra Rab Rb Rba : JObj,
      collapseSchemas (fuel + 1) (.obj pf) path (.obj a) vocab = .ok (.obj Ra) ∧
      collapseSchemas (fuel + 1) (.obj Ra) path (.obj b) vocab = .ok (.obj Rab) ∧
      collapseSchemas (fuel + 1) (.obj pf) path (.obj b) vocab = .ok (.obj Rb) ∧
      collapseSchemas (fuel + 1) (.obj Rb) path (.obj a) vocab = .ok (.obj Rba) ∧
      ObjEquiv Rab Rba := by
  have hov0 : ∀ k, overlapAt pf a b k = true → scalarHypAt vocab k [pf, a, b] = true := by
    intro k hk
    refine hov k ?_ hk
    have hks : hasProp pf k = true ∨ hasProp a k = true := by
      rw [overlapAt] at hk
      simp only [Bool.or_eq_true, Bool.and_eq_true] at hk
      tauto
    rcases hks with h | h
    · exact List.mem_append.mpr (Or.inl (List.mem_append.mpr (Or.inl ((mem_objKeys pf k).mpr h))))
    · exact List.mem_append.mpr (Or.inl (List.mem_append.mpr (Or.inr ((mem_objKeys a k).mpr h))))
  obtain ⟨Ra, hRa, hform1⟩ := collapse_scalar fuel vocab pf a path hnda hpf1 hpf2
    (scalarHyp_first vocab pf a b hov0)
  have hRa1 : hasProp Ra "exclusiveMaximum" = false :=
    hasProp_merged_false vocab pf a Ra _ hform1 hpf1 ha1
  have hRa2 : hasProp Ra "exclusiveMinimum" = false :=
    hasProp_merged_false vocab pf a Ra _ hform1 hpf2 ha2
  obtain ⟨Rab, hRab, hform12⟩ := collapse_scalar fuel vocab Ra b path hndb hRa1 hRa2
    (scalarHyp_fold vocab pf a b Ra hform1 hov0)
  have hov1 : ∀ k, overlapAt pf b a k = true → scalarHypAt vocab k [pf, b, a] = true := by
    intro k h
    rw [overlapAt_swap] at h
    exact scalarHypAt_perm3 vocab k pf a b (hov0 k h)
  obtain ⟨Rb, hRb, hform1b⟩ := collapse_scalar fuel vocab pf b path hndb hpf1 hpf2
    (scalarHyp_first vocab pf b a hov1)
  have hRb1 : hasProp Rb "exclusiveMaximum" = false :=
    hasProp_merged_false vocab pf b Rb _ hform1b hpf1 hb1
  have hRb2 : hasProp Rb "exclusiveMinimum" = false :=
    hasProp_merged_false vocab pf b Rb _ hform1b hpf2 hb2
  obtain ⟨Rba, hRba, hform21⟩ := collapse_scalar fuel vocab Rb a path hnda hRb1 hRb2
    (scalarHyp_fold vocab pf b a Rb hform1b hov1)
  refine ⟨Ra, Rab, Rb, Rba, hRa, hRab, hRb, hRba, ?_⟩
  intro k
  rw [hform12 k, hform1 k, hform21 k, hform1b k]
  refine mergeOneVal_chain_comm vocab k (getProp pf k) (getProp a k) (getProp b k) ?_
  intro hcond
  have hoverlap : overlapAt pf a b k = true := hcond
  obtain ⟨f, hv, hf, hsh⟩ := scalarHypAt_unpack _ _ _ (hov0 k hoverlap)
  refine ⟨f, hv, hf, ?_, ?_, ?_⟩
  · intro v hvp
    have h5 := hsh pf (List.mem_cons_self _ _) (by rw [hasProp, hvp]; rfl)
    rwa [getD, hvp, Option.getD_some] at h5
  · intro v hvp
    have h5 := hsh a (List.mem_cons_of_mem _ (List.mem_cons_self _ _))
      (by rw [hasProp, hvp]; rfl)
    rwa [getD, hvp, Option.getD_some] at h5
  · intro v hvp
    have h5 := hsh b
      (List.mem_cons_of_mem _ (List.mem_cons_of_mem _ (List.mem_cons_self _ _)))
      (by rw [hasProp, hvp]; rfl)
    rwa [getD, hvp, Option.getD_some] at h5

/-- Witness for C6 (amended) at concrete draft-04 nodes exercising four of
the scalar merges: max-of-min (`minLength`, on all three nodes), array
union (`required`), array intersection (`enum`) and OR (`uniqueItems`). -/
theorem c6_scalar_merge_order_amended_witness :
    ∃ Ra Rab Rb Rba : JObj,
      collapseSchemas 3 (.obj [("minLength", JVal.num 5), ("required", .arr [.str "a"]),
          ("uniqueItems", .bool false)]) []
        (.obj [("minLength", JVal.num 3), ("required", .arr [.str "b"]),
          ("enum", .arr [.str "x", .str "y"])]) DRAFT_04 = .ok (.obj Ra) ∧
      collapseSchemas 3 (.obj Ra) []
        (.obj [("minLength", JVal.num 10), ("enum", .arr [.str "y", .str "z"]),
          ("uniqueItems", .bool true)]) DRAFT_04 = .ok (.obj Rab) ∧
      collapseSchemas 3 (.obj [("minLength", JVal.num 5), ("required", .arr [.str "a"]),
          ("uniqueItems", .bool false)]) []
        (.obj [("minLength", JVal.num 10), ("enum", .arr [.str "y", .str "z"]),
          ("uniqueItems", .bool true)]) DRAFT_04 = .ok (.obj Rb) ∧
      collapseSchemas 3 (.obj Rb) []
        (.obj [("minLength", JVal.num 3), ("required", .arr [.str "b"]),
          ("enum", .arr [.str "x", .str "y"])]) DRAFT_04 = .ok (.obj Rba) ∧
      ObjEquiv Rab Rba :=
  c6_scalar_merge_order_amended 2 DRAFT_04 []
    [("minLength", JVal.num 5), ("required", .arr [.str "a"]), ("uniqueItems", .bool false)]
    [("minLength", JVal.num 3), ("required", .arr [.str "b"]), ("enum", .arr [.str "x", .str "y"])]
    [("minLength", JVal.num 10), ("enum", .arr [.str "y", .str "z"]), ("uniqueItems", .bool true)]
    (by decide) (by decide) (by decide) (by decide) (by decide) (by decide) (by decide) (by decide)
    (by decide)
